import Mathlib

/-!
# The project configuration store of `realize` (`src/realize/config.go`)

A shallow embedding of `config.go`: the `Config`/`Project` records, the builder
of a project from command-line parameters (`New`, `nameFlag`, `boolFlag`,
`argsParam`, `WorkingDir`), the duplicate check (`Duplicates`), the
deduplication pass (`Clean`) and the operations on the backing file (`Read`,
`Create`, `Add`, `Remove`).

Conventions of the embedding.
* A Go `error` is an `Option String`: `none` is `nil`, `some msg` is an error
  whose message is `msg`.
* A Go slice is a `List`; the `nil` slice and the empty slice are both `[]`.
* A method with a pointer receiver `h *Config` takes the receiver's value and
  returns the receiver's value after the call.
* The file system, the YAML library, `path/filepath`, `os.Getwd` and the
  package-level constants declared outside `config.go` are supplied by an
  environment record `Env` and a file-system state `FileSys`.
* `log.Fatal` ends the process: a function that may reach it returns
  `Except String _`, the `error` case carrying the fatal message.
* The confirmation lines that `Add` and `Remove` print on success do not
  influence the store and are not modelled.
-/

namespace Realize

/-! ## Data model -/

/-- Modelled from the spec: the declaration of the `Watcher` struct is not in
`config.go`. Fields as `config.go` uses them (`New`, `Add`, `List`) and as the
spec lists them in its data model: `paths`, `ignore`, `exts`, and the
pass-through `after`, `before`, `preview`. -/
structure Watcher where
  After : List String := []
  Before : List String := []
  Paths : List String := []
  Ignore : List String := []
  Exts : List String := []
  Preview : Bool := false
deriving DecidableEq, Repr

/-- Modelled from the spec: the declaration of the `Project` struct is not in
`config.go`. Fields as `config.go` uses them in `New`, `Add` and `List`. The
default value of every field is the Go zero value, so `({} : Project)` is the
Go literal `Project{}`. -/
structure Project where
  Name : String := ""
  Path : String := ""
  Build : Bool := false
  Bin : Bool := false
  Run : Bool := false
  Fmt : Bool := false
  Test : Bool := false
  Params : List String := []
  Watcher : Watcher := {}
deriving DecidableEq, Repr

/-- The `Config` struct (`config.go` lines 16-20). -/
structure Config where
  file : String := ""
  Version : String := ""
  Projects : List Project := []
deriving DecidableEq, Repr

/-- The part of `*cli.Context` that `config.go` reads: the string flags `name`
and `path`, the boolean flags `build`, `no-bin`, `no-run`, `no-fmt`, `test`, and
the positional arguments. `params.String("name")` is `params.name`,
`params.Bool("no-bin")` is `params.noBin`, `params.NArg()` is
`params.args.length` and `params.Args().Get(i)` is `params.args.getD i ""`. -/
structure Context where
  name : String := ""
  path : String := ""
  build : Bool := false
  noBin : Bool := false
  noRun : Bool := false
  noFmt : Bool := false
  test : Bool := false
  args : List String := []
deriving DecidableEq, Repr

/-- What `config.go` takes from outside itself: the package constants
`AppFile`, `AppVersion`, `watcherPaths`, `watcherIgnores`, `watcherExts`
(declared in other files of the package), the result of `os.Getwd`, the
functions `filepath.Base` and `filepath.Clean`, and the YAML encoder and
decoder. `unmarshal data h` is `yaml.Unmarshal(data, h)`: it returns the value
`h` holds after the call together with the error; the decoder only reaches the
exported fields, so `Read` restores `h.file` on its result. -/
structure Env where
  AppFile : String
  AppVersion : String
  watcherPaths : List String
  watcherIgnores : List String
  watcherExts : List String
  getwd : Except String String
  filepathBase : String → String
  filepathClean : String → String
  marshal : Config → Except String String
  unmarshal : String → Config → Config × Option String

/-! ## The duplicate check and the deduplication pass -/

/-- The message of the error `Duplicates` returns for a conflicting entry named
`name` (line 94). -/
def duplicateMsg (name : String) : String :=
  "There is a duplicate of '" ++ name ++ "'. Check your config file!"

/-- `Duplicates` (lines 90-98): the first entry of `arr` with the same `Path`
or the same `Name` as `value`, with an error naming it; `Project{}` and `nil`
when there is none. -/
def Duplicates (value : Project) : List Project → Project × Option String
  | [] => ({}, none)
  | val :: rest =>
    if value.Path = val.Path ∨ value.Name = val.Name then
      (val, some (duplicateMsg val.Name))
    else
      Duplicates value rest

/-- The loop of `Clean` (lines 103-108) from index `key = done.length` on:
`done` is `arr[:key]`, the second argument is `arr[key:]`. At the first `val`
for which `Duplicates(val, arr[key+1:])` reports an error the result is
`append(arr[:key], arr[key+1:]...)` and the loop ends (`break`); when the range
is exhausted the collection is as it was. -/
def cleanLoop (done : List Project) : List Project → List Project
  | [] => done
  | val :: rest =>
    if (Duplicates val rest).2 ≠ none then
      done ++ rest
    else
      cleanLoop (done ++ [val]) rest

/-- `Config.Clean` (lines 100-109). -/
def Config.Clean (h : Config) : Config :=
  { h with Projects := cleanLoop [] h.Projects }

/-! ## Building a project from the command-line parameters -/

/-- `argsParam` (lines 47-58): the positional arguments in order, `nil` when
there are none. -/
def argsParam (params : Context) : List String :=
  let argsN := params.args.length
  if argsN > 0 then
    (List.range argsN).map (fun i => params.args.getD i "")
  else
    []

/-- `boolFlag` (lines 73-79). -/
def boolFlag (b : Bool) : Bool :=
  if b then false else true

/-- `WorkingDir` (lines 81-88): the last element of the working directory; a
failing `os.Getwd` ends the process through `log.Fatal`. -/
def WorkingDir (env : Env) : Except String String :=
  match env.getwd with
  | .error err => .error err
  | .ok dir => .ok (env.filepathBase dir)

/-- `nameFlag` (lines 60-71). -/
def nameFlag (env : Env) (params : Context) : Except String String :=
  if params.name = "" ∧ params.path = "" then
    WorkingDir env
  else if params.path ≠ "/" then
    .ok (env.filepathBase params.path)
  else
    .ok params.name

/-- The `Project` literal that `New` (lines 28-42) and `Add` (lines 144-158)
both build from the parameters; the two literals give every field the same
value. -/
def buildProject (env : Env) (params : Context) : Except String Project :=
  match nameFlag env params with
  | .error fatal => .error fatal
  | .ok name =>
    .ok {
      Name := name
      Path := env.filepathClean params.path
      Build := params.build
      Bin := boolFlag params.noBin
      Run := boolFlag params.noRun
      Fmt := boolFlag params.noFmt
      Test := params.test
      Params := argsParam params
      Watcher := {
        Paths := env.watcherPaths
        Ignore := env.watcherIgnores
        Exts := env.watcherExts } }

/-- `New` (lines 22-45). -/
def New (env : Env) (params : Context) : Except String Config :=
  match buildProject env params with
  | .error fatal => .error fatal
  | .ok project =>
    .ok { file := env.AppFile, Version := env.AppVersion, Projects := [project] }

/-! ## The backing file -/

/-- The state of the file system as `config.go` meets it. `content name` is the
content of the file `name`, `none` when there is no such file. `readFault` and
`writeFault`, when set, are the errors with which reading an existing file and
writing a file fail (permissions, I/O). `writeCalls` records every call of
`ioutil.WriteFile`: file name, data and permission mode. -/
structure FileSys where
  content : String → Option String
  readFault : Option String := none
  writeFault : Option String := none
  writeCalls : List (String × String × Nat) := []

/-- `os.Stat(name)`, its error only: `nil` when the file exists. -/
def osStat (fs : FileSys) (name : String) : Option String :=
  match fs.content name with
  | some _ => none
  | none => some ("stat " ++ name ++ ": no such file or directory")

/-- `ioutil.ReadFile(name)`. -/
def readFile (fs : FileSys) (name : String) : Except String String :=
  match fs.content name with
  | none => .error ("open " ++ name ++ ": no such file or directory")
  | some data =>
    match fs.readFault with
    | some err => .error err
    | none => .ok data

/-- `ioutil.WriteFile(name, data, perm)`: on success the file `name` holds
`data`, whether or not it existed before. -/
def writeFile (fs : FileSys) (name data : String) (perm : Nat) : FileSys × Option String :=
  let called := { fs with writeCalls := fs.writeCalls ++ [(name, data, perm)] }
  match fs.writeFault with
  | some err => (called, some err)
  | none =>
    ({ called with content := fun p => if p = name then some data else fs.content p }, none)

/-- What a method of `*Config` leaves behind: the file system, the receiver
and the returned `error`. -/
structure Result where
  fs : FileSys
  h : Config
  err : Option String

/-- `Config.Create` (lines 131-138); the receiver is not modified. -/
def Config.Create (env : Env) (fs : FileSys) (h : Config) : FileSys × Option String :=
  match env.marshal h with
  | .error err => (fs, some err)
  | .ok y => writeFile fs h.file y 0o655

/-- `Config.Read` (lines 111-129). -/
def Config.Read (env : Env) (fs : FileSys) (h : Config) : Result :=
  match osStat fs h.file with
  | none =>
    match readFile fs h.file with
    | .ok file =>
      if h.Projects.length > 0 then
        let decoded := env.unmarshal file h
        let h1 : Config := { decoded.1 with file := h.file }
        match decoded.2 with
        | none => ⟨fs, h1.Clean, none⟩
        | some err => ⟨fs, h1, some err⟩
      else
        ⟨fs, h, some "There are no projects"⟩
    | .error _ =>
      let created := h.Create env fs
      ⟨created.1, h, created.2⟩
  | some err => ⟨fs, h, some err⟩

/-- `Config.Add` (lines 140-174). The process ends without a result when
`nameFlag` reaches `log.Fatal`. -/
def Config.Add (env : Env) (fs : FileSys) (h : Config) (params : Context) :
    Except String Result :=
  let r := h.Read env fs
  match r.err with
  | none =>
    match buildProject env params with
    | .error fatal => .error fatal
    | .ok new =>
      match (Duplicates new r.h.Projects).2 with
      | some err => .ok ⟨r.fs, r.h, some err⟩
      | none =>
        let h2 : Config := { r.h with Projects := r.h.Projects ++ [new] }
        let created := h2.Create env r.fs
        .ok ⟨created.1, h2, created.2⟩
  | some _ =>
    let created := r.h.Create env r.fs
    .ok ⟨created.1, r.h, created.2⟩

/-- The loop of `Remove` (lines 180-189) from index `key = done.length` on:
`done` is `h.Projects[:key]`, the last argument is `h.Projects[key:]`. -/
def removeLoop (env : Env) (fs : FileSys) (h : Config) (name : String)
    (done : List Project) : List Project → Result
  | [] => ⟨fs, h, some "No project found"⟩
  | val :: rest =>
    if name = val.Name then
      let h2 : Config := { h with Projects := done ++ rest }
      let created := h2.Create env fs
      ⟨created.1, h2, created.2⟩
    else
      removeLoop env fs h name (done ++ [val]) rest

/-- `Config.Remove` (lines 176-193). -/
def Config.Remove (env : Env) (fs : FileSys) (h : Config) (params : Context) : Result :=
  let r := h.Read env fs
  match r.err with
  | none => removeLoop env r.fs r.h params.name [] r.h.Projects
  | some _ => r

/-! ## A concrete environment and concrete stores

Used to evaluate the operations on explicit inputs. -/

/-- Go's `filepath.Base` on Unix paths: `.` for the empty path, trailing
separators dropped, then the part after the last separator, `/` when nothing
is left. -/
def exampleBase (path : String) : String :=
  if path = "" then "."
  else
    let stripped := (path.data.reverse.dropWhile (· = '/')).reverse
    let last := (stripped.reverse.takeWhile (· ≠ '/')).reverse
    if last = [] then "/" else String.mk last

/-- Go's `filepath.Clean` on the paths of the examples, which have no `.` or
`..` element and no repeated or trailing separator: only the empty path
changes, to `.`. -/
def exampleClean (path : String) : String :=
  if path = "" then "." else path

/-- A serializer for the examples: the version, then name and path of every
project in order. -/
def exampleEncode (h : Config) : String :=
  "version: " ++ h.Version ++
    String.join (h.Projects.map fun p => "\n- name: " ++ p.Name ++ "\n  path: " ++ p.Path)

/-- Project `a` at `/x`. -/
def projectA : Project := { Name := "a", Path := "/x" }

/-- Project `b` at `/y`. -/
def projectB : Project := { Name := "b", Path := "/y" }

/-- The store holding `a` and `b`. -/
def storeAB : Config := { file := ".realize.yaml", Version := "1.0", Projects := [projectA, projectB] }

/-- The store holding `b` only. -/
def storeB : Config := { file := ".realize.yaml", Version := "1.0", Projects := [projectB] }

/-- A store with three projects named `a`. -/
def storeAAA : Config where
  file := ".realize.yaml"
  Version := "1.0"
  Projects := [{ Name := "a", Path := "/x" }, { Name := "a", Path := "/y" }, { Name := "a", Path := "/z" }]

/-- The store holding `a` only. -/
def storeA : Config := { file := ".realize.yaml", Version := "1.0", Projects := [projectA] }

/-- A store with two projects named `a`. -/
def storeAA : Config where
  file := ".realize.yaml"
  Version := "1.0"
  Projects := [{ Name := "a", Path := "/x" }, { Name := "a", Path := "/y" }]

/-- A store without projects. -/
def storeEmpty : Config := { file := ".realize.yaml", Version := "1.0", Projects := [] }

/-- The documents the example decoder knows. -/
def exampleStores : List Config := [storeAB, storeB, storeAAA, storeA, storeAA, storeEmpty]

/-- A decoder for the examples: the document of a known store sets version and
projects of the receiver; any other text is a decoding error. -/
def exampleDecode (data : String) (h : Config) : Config × Option String :=
  match exampleStores.find? (fun c => exampleEncode c = data) with
  | some c => ({ h with Version := c.Version, Projects := c.Projects }, none)
  | none => (h, some "yaml: unmarshal errors")

/-- The environment of the examples. -/
def exampleEnv : Env where
  AppFile := ".realize.yaml"
  AppVersion := "1.0"
  watcherPaths := ["/"]
  watcherIgnores := ["vendor"]
  watcherExts := [".go"]
  getwd := .ok "/home/dev/app"
  filepathBase := exampleBase
  filepathClean := exampleClean
  marshal := fun h => .ok (exampleEncode h)
  unmarshal := exampleDecode

/-- A file system without the backing file. -/
def fsAbsent : FileSys := { content := fun _ => none }

/-- A file system whose backing file `.realize.yaml` holds `data`. -/
def fsHolding (data : String) : FileSys :=
  { content := fun p => if p = ".realize.yaml" then some data else none }

/-- A file system whose backing file holds `data` and cannot be read. -/
def fsUnreadable (data : String) : FileSys :=
  { content := fun p => if p = ".realize.yaml" then some data else none
    readFault := some "open .realize.yaml: permission denied" }

/-- The project built from the parameters `--path /w`. -/
def projectW : Project where
  Name := "w"
  Path := "/w"
  Bin := true
  Run := true
  Fmt := true
  Watcher := { Paths := ["/"], Ignore := ["vendor"], Exts := [".go"] }

/-- The receiver `New` builds from the parameters `--path /w`. -/
def bootW : Config := { file := ".realize.yaml", Version := "1.0", Projects := [projectW] }

/-- The parameters `--path /w`. -/
def paramsW : Context := { path := "/w" }

/-- The parameters `--path /q/a`. -/
def paramsQA : Context := { path := "/q/a" }

/-- The project built from the parameters `--path /q/a`; its name is `a`. -/
def projectQA : Project where
  Name := "a"
  Path := "/q/a"
  Bin := true
  Run := true
  Fmt := true
  Watcher := { Paths := ["/"], Ignore := ["vendor"], Exts := [".go"] }

/-- The parameters `--name a --path /z`. -/
def paramsAZ : Context := { name := "a", path := "/z" }

/-- The project built from the parameters `--name a --path /z`; its name is
`z`. -/
def projectZ : Project where
  Name := "z"
  Path := "/z"
  Bin := true
  Run := true
  Fmt := true
  Watcher := { Paths := ["/"], Ignore := ["vendor"], Exts := [".go"] }

/-- The receiver `New` builds from the parameters `--name a --path /z`. -/
def bootZ : Config := { file := ".realize.yaml", Version := "1.0", Projects := [projectZ] }

/-- The parameters `--name a --path /`. -/
def paramsARoot : Context := { name := "a", path := "/" }

/-- The project built from the parameters `--name a --path /`. -/
def projectARoot : Project where
  Name := "a"
  Path := "/"
  Bin := true
  Run := true
  Fmt := true
  Watcher := { Paths := ["/"], Ignore := ["vendor"], Exts := [".go"] }

/-- The parameters `--name a` without a path. -/
def paramsA : Context := { name := "a" }

/-- The parameters `--no-run --build` with two positional arguments. -/
def paramsFlags : Context :=
  { path := "/w", build := true, noRun := true, args := ["-v", "x"] }

/-! ## The uniqueness invariant -/

/-- The uniqueness invariant of the store: no two entries of the collection,
at different positions, share a `Name`, and no two share a `Path`. -/
def ConflictFree (l : List Project) : Prop :=
  l.Pairwise fun p q => p.Name ≠ q.Name ∧ p.Path ≠ q.Path

instance ConflictFree.decidable (l : List Project) : Decidable (ConflictFree l) := by
  unfold ConflictFree
  infer_instance

/-! ## Lemmas on `Duplicates` -/

/-- On a collection without an entry sharing `Path` or `Name` with the
candidate, `Duplicates` returns `Project{}` and `nil`. -/
theorem Duplicates_eq_of_disjoint (c : Project) (arr : List Project)
    (hfree : ∀ x ∈ arr, ¬ (c.Path = x.Path ∨ c.Name = x.Name)) :
    Duplicates c arr = ({}, none) := by
  induction arr with
  | nil => rfl
  | cons val rest ih =>
    have hval := hfree val (List.mem_cons_self _ _)
    have hrest : ∀ x ∈ rest, ¬ (c.Path = x.Path ∨ c.Name = x.Name) :=
      fun x hx => hfree x (List.mem_cons_of_mem _ hx)
    simp only [Duplicates, if_neg hval]
    exact ih hrest

/-- The scan of `Duplicates` passes over a prefix without conflict and stops at
the entry after it when that entry conflicts. -/
theorem Duplicates_eq_of_split (c q : Project) (pre post : List Project)
    (hpre : ∀ x ∈ pre, ¬ (c.Path = x.Path ∨ c.Name = x.Name))
    (hq : c.Path = q.Path ∨ c.Name = q.Name) :
    Duplicates c (pre ++ q :: post) = (q, some (duplicateMsg q.Name)) := by
  induction pre with
  | nil => simp only [List.nil_append, Duplicates, if_pos hq]
  | cons val rest ih =>
    have hval := hpre val (List.mem_cons_self _ _)
    have hrest : ∀ x ∈ rest, ¬ (c.Path = x.Path ∨ c.Name = x.Name) :=
      fun x hx => hpre x (List.mem_cons_of_mem _ hx)
    simp only [List.cons_append, Duplicates, if_neg hval]
    exact ih hrest

/-- A collection with a conflicting entry splits at its first conflicting
entry. -/
theorem exists_first_conflict (c : Project) (arr : List Project)
    (hex : ∃ x ∈ arr, c.Path = x.Path ∨ c.Name = x.Name) :
    ∃ pre q post, arr = pre ++ q :: post ∧
      (∀ x ∈ pre, ¬ (c.Path = x.Path ∨ c.Name = x.Name)) ∧
      (c.Path = q.Path ∨ c.Name = q.Name) := by
  induction arr with
  | nil => obtain ⟨x, hx, _⟩ := hex; cases hx
  | cons val rest ih =>
    by_cases hval : c.Path = val.Path ∨ c.Name = val.Name
    · exact ⟨[], val, rest, rfl, fun x hx => (by cases hx), hval⟩
    · obtain ⟨x, hx, hc⟩ := hex
      have hxrest : x ∈ rest := by
        rcases List.mem_cons.mp hx with h | h
        · subst h; exact absurd hc hval
        · exact h
      obtain ⟨pre, q, post, hsplit, hpre, hq⟩ := ih ⟨x, hxrest, hc⟩
      refine ⟨val :: pre, q, post, by rw [hsplit]; rfl, ?_, hq⟩
      intro y hy
      rcases List.mem_cons.mp hy with h | h
      · subst h; exact hval
      · exact hpre y h

/-- The error of `Duplicates` is `nil` exactly on a collection without
conflict. -/
theorem Duplicates_err_eq_none_iff (c : Project) (arr : List Project) :
    (Duplicates c arr).2 = none ↔ ∀ x ∈ arr, ¬ (c.Path = x.Path ∨ c.Name = x.Name) := by
  constructor
  · intro hnone x hx hc
    obtain ⟨pre, q, post, hsplit, hpre, hq⟩ := exists_first_conflict c arr ⟨x, hx, hc⟩
    rw [hsplit, Duplicates_eq_of_split c q pre post hpre hq] at hnone
    cases hnone
  · intro hfree
    rw [Duplicates_eq_of_disjoint c arr hfree]

/-! ## The duplicate check (`Duplicates`) -/

/-- C1: `Duplicates(c, arr)` returns the first entry of `arr`, in order, whose
`Path` equals `c.Path` or whose `Name` equals `c.Name`, together with an error
whose message names that entry; such a first entry exists as soon as some
entry conflicts; and it returns `Project{}` with a `nil` error exactly when
every entry differs from `c` in both `Name` and `Path`. -/
theorem Duplicates_reports_first_conflict (c : Project) (arr : List Project) :
    (∀ pre q post, arr = pre ++ q :: post →
        (∀ x ∈ pre, x.Path ≠ c.Path ∧ x.Name ≠ c.Name) →
        (q.Path = c.Path ∨ q.Name = c.Name) →
        Duplicates c arr = (q, some (duplicateMsg q.Name))) ∧
    ((∃ x ∈ arr, x.Path = c.Path ∨ x.Name = c.Name) →
        ∃ pre q post, arr = pre ++ q :: post ∧
          (∀ x ∈ pre, x.Path ≠ c.Path ∧ x.Name ≠ c.Name) ∧
          (q.Path = c.Path ∨ q.Name = c.Name) ∧
          Duplicates c arr = (q, some (duplicateMsg q.Name))) ∧
    (Duplicates c arr = (({} : Project), none) ↔
        ∀ x ∈ arr, x.Name ≠ c.Name ∧ x.Path ≠ c.Path) := by
  refine ⟨?_, ?_, ?_⟩
  · intro pre q post hsplit hpre hq
    rw [hsplit]
    refine Duplicates_eq_of_split c q pre post ?_ ?_
    · intro x hx hc
      rcases hc with h | h
      · exact (hpre x hx).1 h.symm
      · exact (hpre x hx).2 h.symm
    · rcases hq with h | h
      · exact Or.inl h.symm
      · exact Or.inr h.symm
  · rintro ⟨x, hx, hc⟩
    have hc2 : c.Path = x.Path ∨ c.Name = x.Name := by
      rcases hc with h | h
      · exact Or.inl h.symm
      · exact Or.inr h.symm
    obtain ⟨pre, q, post, hsplit, hpre, hq⟩ := exists_first_conflict c arr ⟨x, hx, hc2⟩
    refine ⟨pre, q, post, hsplit, ?_, ?_, ?_⟩
    · intro y hy
      exact ⟨fun h => hpre y hy (Or.inl h.symm), fun h => hpre y hy (Or.inr h.symm)⟩
    · rcases hq with h | h
      · exact Or.inl h.symm
      · exact Or.inr h.symm
    · rw [hsplit]; exact Duplicates_eq_of_split c q pre post hpre hq
  · constructor
    · intro heq x hx
      have hnone : (Duplicates c arr).2 = none := by rw [heq]
      have hfree := (Duplicates_err_eq_none_iff c arr).mp hnone x hx
      exact ⟨fun h => hfree (Or.inr h.symm), fun h => hfree (Or.inl h.symm)⟩
    · intro hfree
      refine Duplicates_eq_of_disjoint c arr ?_
      intro x hx hc
      rcases hc with h | h
      · exact (hfree x hx).2 h.symm
      · exact (hfree x hx).1 h.symm

/-! ## The deduplication pass (`Clean`) -/

/-- C2 (evaluation of the code): on three projects named `a`, `Clean` removes
the first one only; the two projects it leaves share the name `a`. -/
theorem Clean_leaves_shared_name :
    (Config.Clean storeAAA).Projects =
        [{ Name := "a", Path := "/y" }, { Name := "a", Path := "/z" }] ∧
      ∃ p ∈ (Config.Clean storeAAA).Projects, ∃ q ∈ (Config.Clean storeAAA).Projects,
        p ≠ q ∧ p.Name = q.Name := by
  refine ⟨by decide, { Name := "a", Path := "/y" }, by decide,
    { Name := "a", Path := "/z" }, by decide, by decide, by decide⟩

/-- C3 (evaluation of the code): on three projects named `a`, a second `Clean`
removes one more project, so `Clean` twice differs from `Clean` once. -/
theorem Clean_twice_ne_once :
    (Config.Clean (Config.Clean storeAAA)).Projects = [{ Name := "a", Path := "/z" }] ∧
      Config.Clean (Config.Clean storeAAA) ≠ Config.Clean storeAAA := by
  refine ⟨by decide, by decide⟩

/-! ## Lemmas on the backing file -/

/-- `Clean` keeps the `file` field. -/
theorem Clean_file (h : Config) : (Config.Clean h).file = h.file := rfl

/-- `writeFile` does not touch the write fault of the file system. -/
theorem writeFile_writeFault (fs : FileSys) (name data : String) (perm : Nat) :
    (writeFile fs name data perm).1.writeFault = fs.writeFault := by
  unfold writeFile
  cases fs.writeFault <;> rfl

/-- `Create` does not touch the write fault of the file system. -/
theorem Create_writeFault (env : Env) (fs : FileSys) (h : Config) :
    (h.Create env fs).1.writeFault = fs.writeFault := by
  unfold Config.Create
  cases env.marshal h with
  | error err => rfl
  | ok y => exact writeFile_writeFault fs h.file y 0o655

/-- When serialization gives `y` and writing does not fail, `Create` returns
`nil` and the file holds `y`. -/
theorem Create_of_ok (env : Env) (fs : FileSys) (h : Config) (y : String)
    (hy : env.marshal h = .ok y) (hw : fs.writeFault = none) :
    (h.Create env fs).2 = none ∧ (h.Create env fs).1.content h.file = some y := by
  unfold Config.Create
  rw [hy]
  simp [writeFile, hw]

/-- `Read` of an absent file: the `os.Stat` error, nothing else happens. -/
theorem Read_of_absent (env : Env) (fs : FileSys) (h : Config)
    (habsent : fs.content h.file = none) :
    h.Read env fs = ⟨fs, h, some ("stat " ++ h.file ++ ": no such file or directory")⟩ := by
  simp only [Config.Read, osStat, habsent]

/-- `Read` of a file that exists and cannot be read: the outcome of `Create`. -/
theorem Read_of_unreadable (env : Env) (fs : FileSys) (h : Config) (data err : String)
    (hexists : fs.content h.file = some data) (hfault : fs.readFault = some err) :
    h.Read env fs = ⟨(h.Create env fs).1, h, (h.Create env fs).2⟩ := by
  simp only [Config.Read, osStat, readFile, hexists, hfault]

/-- `Read` of a file that exists and can be read does not change the file
system. -/
theorem Read_fs_of_readable (env : Env) (fs : FileSys) (h : Config) (data : String)
    (hexists : fs.content h.file = some data) (hreadable : fs.readFault = none) :
    (h.Read env fs).fs = fs := by
  simp only [Config.Read, osStat, readFile, hexists, hreadable]
  split
  · split <;> rfl
  · rfl

/-- A successful `Read` of a readable file: the receiver had a project, the
decoder reported no error, and the receiver now holds the decoded value after
`Clean`. -/
theorem Read_of_loaded (env : Env) (fs : FileSys) (h : Config) (data : String)
    (hexists : fs.content h.file = some data) (hreadable : fs.readFault = none)
    (hload : (h.Read env fs).err = none) :
    0 < h.Projects.length ∧ (env.unmarshal data h).2 = none ∧
      h.Read env fs =
        ⟨fs, Config.Clean { (env.unmarshal data h).1 with file := h.file }, none⟩ := by
  simp only [Config.Read, osStat, readFile, hexists, hreadable] at hload ⊢
  by_cases hlen : h.Projects.length > 0
  · simp only [hlen, if_true] at hload ⊢
    cases hdec : (env.unmarshal data h).2 with
    | none => simp
    | some e => simp [hdec] at hload
  · simp [hlen] at hload

/-- `Read` keeps the write fault of the file system. -/
theorem Read_writeFault (env : Env) (fs : FileSys) (h : Config) :
    (h.Read env fs).fs.writeFault = fs.writeFault := by
  simp only [Config.Read, osStat, readFile]
  repeat' split
  all_goals first | rfl | exact Create_writeFault env fs h

/-- `Read` keeps the `file` field of the receiver. -/
theorem Read_file (env : Env) (fs : FileSys) (h : Config) :
    (h.Read env fs).h.file = h.file := by
  simp only [Config.Read, osStat, readFile]
  repeat' split
  all_goals rfl

/-! ## Lemmas on the builder and on the loop of `Remove` -/

/-- When the working directory is known, `nameFlag` returns a name. -/
theorem nameFlag_ok (env : Env) (params : Context) (wd : String)
    (hwd : env.getwd = .ok wd) : ∃ name, nameFlag env params = .ok name := by
  unfold nameFlag WorkingDir
  rw [hwd]
  split
  · exact ⟨_, rfl⟩
  · split <;> exact ⟨_, rfl⟩

/-- When the working directory is known, the builder returns a project. -/
theorem buildProject_ok (env : Env) (params : Context) (wd : String)
    (hwd : env.getwd = .ok wd) : ∃ project, buildProject env params = .ok project := by
  obtain ⟨name, hname⟩ := nameFlag_ok env params wd hwd
  unfold buildProject
  rw [hname]
  exact ⟨_, rfl⟩

/-- A list with an element satisfying `P` splits at the first such element. -/
theorem exists_first_split {α : Type} (P : α → Prop) (l : List α)
    (hex : ∃ x ∈ l, P x) :
    ∃ pre q post, l = pre ++ q :: post ∧ (∀ x ∈ pre, ¬ P x) ∧ P q := by
  induction l with
  | nil => obtain ⟨x, hx, _⟩ := hex; cases hx
  | cons val rest ih =>
    by_cases hval : P val
    · exact ⟨[], val, rest, rfl, fun x hx => (by cases hx), hval⟩
    · obtain ⟨x, hx, hp⟩ := hex
      have hxrest : x ∈ rest := by
        rcases List.mem_cons.mp hx with h | h
        · subst h; exact absurd hp hval
        · exact h
      obtain ⟨pre, q, post, hsplit, hpre, hq⟩ := ih ⟨x, hxrest, hp⟩
      refine ⟨val :: pre, q, post, by rw [hsplit]; rfl, ?_, hq⟩
      intro y hy
      rcases List.mem_cons.mp hy with h | h
      · subst h; exact hval
      · exact hpre y h

/-- The loop of `Remove` passes over a prefix without the name, removes the
entry after it when that entry has the name, and hands the rest to `Create`. -/
theorem removeLoop_of_split (env : Env) (fs : FileSys) (h : Config) (name : String)
    (done pre post : List Project) (q : Project)
    (hpre : ∀ x ∈ pre, ¬ name = x.Name) (hq : name = q.Name) :
    removeLoop env fs h name done (pre ++ q :: post) =
      ⟨(Config.Create env fs { h with Projects := done ++ pre ++ post }).1,
        { h with Projects := done ++ pre ++ post },
        (Config.Create env fs { h with Projects := done ++ pre ++ post }).2⟩ := by
  induction pre generalizing done with
  | nil => simp only [List.nil_append, removeLoop, if_pos hq, List.append_nil]
  | cons val rest ih =>
    have hval := hpre val (List.mem_cons_self _ _)
    have hrest : ∀ x ∈ rest, ¬ name = x.Name :=
      fun x hx => hpre x (List.mem_cons_of_mem _ hx)
    show removeLoop env fs h name done (val :: (rest ++ q :: post)) = _
    rw [removeLoop, if_neg hval, ih (done ++ [val]) hrest]
    simp only [List.append_assoc, List.singleton_append]

/-- The loop of `Remove` over entries without the name: the error
`No project found`, nothing written. -/
theorem removeLoop_of_no_match (env : Env) (fs : FileSys) (h : Config) (name : String)
    (done rest : List Project) (hrest : ∀ x ∈ rest, ¬ name = x.Name) :
    removeLoop env fs h name done rest = ⟨fs, h, some "No project found"⟩ := by
  induction rest generalizing done with
  | nil => rfl
  | cons val tail ih =>
    have hval := hrest val (List.mem_cons_self _ _)
    simp only [removeLoop, if_neg hval]
    exact ih (done ++ [val]) (fun x hx => hrest x (List.mem_cons_of_mem _ hx))

/-! ## Adding a project (`Add`) -/

/-- C4: when the backing file exists, can be read and loads without error, and
the project built from the parameters has the `Name` of some loaded project,
`Add` returns the error of `Duplicates` (naming the first loaded project that
shares its `Path` or `Name`) and the file system is as before: the content of
the backing file is unchanged and `WriteFile` was not called. -/
theorem Add_duplicate_name_fails (env : Env) (fs : FileSys) (h : Config)
    (params : Context) (data : String) (new : Project)
    (hexists : fs.content h.file = some data) (hreadable : fs.readFault = none)
    (hload : (h.Read env fs).err = none)
    (hbuild : buildProject env params = .ok new)
    (hname : ∃ q ∈ (h.Read env fs).h.Projects, q.Name = new.Name) :
    ∃ r d, h.Add env fs params = .ok r ∧
      Duplicates new (h.Read env fs).h.Projects = (d, some (duplicateMsg d.Name)) ∧
      d ∈ (h.Read env fs).h.Projects ∧ (d.Path = new.Path ∨ d.Name = new.Name) ∧
      r.err = some (duplicateMsg d.Name) ∧
      r.fs = fs ∧ r.fs.content h.file = some data ∧ r.fs.writeCalls = fs.writeCalls := by
  obtain ⟨q, hq, hqname⟩ := hname
  obtain ⟨pre, d, post, hsplit, hpre, hd⟩ :=
    exists_first_conflict new (h.Read env fs).h.Projects ⟨q, hq, Or.inr hqname.symm⟩
  have hdup : Duplicates new (h.Read env fs).h.Projects = (d, some (duplicateMsg d.Name)) := by
    rw [hsplit]; exact Duplicates_eq_of_split new d pre post hpre hd
  have hfs : (h.Read env fs).fs = fs := Read_fs_of_readable env fs h data hexists hreadable
  refine ⟨⟨(h.Read env fs).fs, (h.Read env fs).h, some (duplicateMsg d.Name)⟩, d, ?_, hdup,
    ?_, ?_, rfl, hfs, ?_, ?_⟩
  · simp only [Config.Add, hload, hbuild, hdup]
  · rw [hsplit]; simp
  · rcases hd with hp | hn
    · exact Or.inl hp.symm
    · exact Or.inr hn.symm
  · show (h.Read env fs).fs.content h.file = some data
    rw [hfs]; exact hexists
  · show (h.Read env fs).fs.writeCalls = fs.writeCalls
    rw [hfs]

/-- C5: when the store loads without error and the project built from the
parameters differs in `Name` and in `Path` from every loaded project, `Add`
leaves in memory the loaded collection followed by the built project, and its
file system and error are those of `Create` on that receiver. The loaded
collection of a readable file is the decoded one after `Clean`; when
serialization and writing succeed the backing file holds the serialization of
the new receiver. -/
theorem Add_appends_and_persists (env : Env) (fs : FileSys) (h : Config)
    (params : Context) (new : Project)
    (hload : (h.Read env fs).err = none)
    (hbuild : buildProject env params = .ok new)
    (hfree : ∀ x ∈ (h.Read env fs).h.Projects, x.Name ≠ new.Name ∧ x.Path ≠ new.Path) :
    ∃ r, h.Add env fs params = .ok r ∧
      r.h = { (h.Read env fs).h with Projects := (h.Read env fs).h.Projects ++ [new] } ∧
      (r.fs, r.err) = Config.Create env (h.Read env fs).fs r.h ∧
      (∀ data, fs.content h.file = some data → fs.readFault = none →
        (h.Read env fs).fs = fs ∧
        (h.Read env fs).h = Config.Clean { (env.unmarshal data h).1 with file := h.file }) ∧
      (∀ y, env.marshal r.h = .ok y → fs.writeFault = none →
        r.err = none ∧ r.fs.content h.file = some y) := by
  have hdup : (Duplicates new (h.Read env fs).h.Projects).2 = none := by
    rw [Duplicates_err_eq_none_iff]
    intro x hx hc
    rcases hc with hp | hn
    · exact (hfree x hx).2 hp.symm
    · exact (hfree x hx).1 hn.symm
  refine ⟨⟨(Config.Create env (h.Read env fs).fs
      { (h.Read env fs).h with Projects := (h.Read env fs).h.Projects ++ [new] }).1,
    { (h.Read env fs).h with Projects := (h.Read env fs).h.Projects ++ [new] },
    (Config.Create env (h.Read env fs).fs
      { (h.Read env fs).h with Projects := (h.Read env fs).h.Projects ++ [new] }).2⟩,
    ?_, rfl, rfl, ?_, ?_⟩
  · simp only [Config.Add, hload, hbuild, hdup]
  · intro data hexists hreadable
    obtain ⟨_, _, hread⟩ := Read_of_loaded env fs h data hexists hreadable hload
    exact ⟨Read_fs_of_readable env fs h data hexists hreadable, by rw [hread]⟩
  · intro y hy hw
    have hw2 : (h.Read env fs).fs.writeFault = none := by rw [Read_writeFault]; exact hw
    have hc := Create_of_ok env (h.Read env fs).fs _ y hy hw2
    rw [← Read_file env fs h]
    exact hc

/-- Witness of C4: the store holds `a` at `/x` and `b` at `/y`; adding
`--path /q/a`, whose built name is `a`, fails and the file is as before. -/
theorem Add_duplicate_name_fails_witness :
    (fsHolding (exampleEncode storeAB)).content bootW.file = some (exampleEncode storeAB) ∧
    (fsHolding (exampleEncode storeAB)).readFault = none ∧
    (bootW.Read exampleEnv (fsHolding (exampleEncode storeAB))).err = none ∧
    buildProject exampleEnv paramsQA = .ok projectQA ∧
    (∃ q ∈ (bootW.Read exampleEnv (fsHolding (exampleEncode storeAB))).h.Projects,
      q.Name = projectQA.Name) ∧
    ∃ r d, bootW.Add exampleEnv (fsHolding (exampleEncode storeAB)) paramsQA = .ok r ∧
      Duplicates projectQA (bootW.Read exampleEnv (fsHolding (exampleEncode storeAB))).h.Projects
        = (d, some (duplicateMsg d.Name)) ∧
      d ∈ (bootW.Read exampleEnv (fsHolding (exampleEncode storeAB))).h.Projects ∧
      (d.Path = projectQA.Path ∨ d.Name = projectQA.Name) ∧
      r.err = some (duplicateMsg d.Name) ∧
      r.fs = fsHolding (exampleEncode storeAB) ∧
      r.fs.content bootW.file = some (exampleEncode storeAB) ∧
      r.fs.writeCalls = (fsHolding (exampleEncode storeAB)).writeCalls :=
  ⟨by decide, rfl, by decide, rfl, ⟨projectA, by decide, by decide⟩,
    Add_duplicate_name_fails exampleEnv (fsHolding (exampleEncode storeAB)) bootW paramsQA
      (exampleEncode storeAB) projectQA (by decide) rfl (by decide) rfl
      ⟨projectA, by decide, by decide⟩⟩

/-- Witness of C5: the store holds `a` at `/x` and `b` at `/y`; adding
`--path /w` appends the project `w`. -/
theorem Add_appends_and_persists_witness :
    (bootW.Read exampleEnv (fsHolding (exampleEncode storeAB))).err = none ∧
    buildProject exampleEnv paramsW = .ok projectW ∧
    (∀ x ∈ (bootW.Read exampleEnv (fsHolding (exampleEncode storeAB))).h.Projects,
      x.Name ≠ projectW.Name ∧ x.Path ≠ projectW.Path) ∧
    ∃ r, bootW.Add exampleEnv (fsHolding (exampleEncode storeAB)) paramsW = .ok r ∧
      r.h = { (bootW.Read exampleEnv (fsHolding (exampleEncode storeAB))).h with
        Projects :=
          (bootW.Read exampleEnv (fsHolding (exampleEncode storeAB))).h.Projects ++ [projectW] } ∧
      (r.fs, r.err) =
        Config.Create exampleEnv (bootW.Read exampleEnv (fsHolding (exampleEncode storeAB))).fs r.h ∧
      (∀ data, (fsHolding (exampleEncode storeAB)).content bootW.file = some data →
        (fsHolding (exampleEncode storeAB)).readFault = none →
        (bootW.Read exampleEnv (fsHolding (exampleEncode storeAB))).fs
          = fsHolding (exampleEncode storeAB) ∧
        (bootW.Read exampleEnv (fsHolding (exampleEncode storeAB))).h =
          Config.Clean { (exampleEnv.unmarshal data bootW).1 with file := bootW.file }) ∧
      (∀ y, exampleEnv.marshal r.h = .ok y →
        (fsHolding (exampleEncode storeAB)).writeFault = none →
        r.err = none ∧ r.fs.content bootW.file = some y) :=
  ⟨by decide, rfl, by decide,
    Add_appends_and_persists exampleEnv (fsHolding (exampleEncode storeAB)) bootW paramsW
      projectW (by decide) rfl (by decide)⟩

/-- C10: when the backing file is absent, the working directory is known and
serializing and writing succeed, `New(params).Add(params)` returns `nil` and
the backing file holds the serialization `y` of the receiver of `New`: the
application's file name and version and the one project the builder produces
from `params`. -/
theorem New_Add_creates_file (env : Env) (fs : FileSys) (params : Context) (wd y : String)
    (habsent : fs.content env.AppFile = none) (hwrite : fs.writeFault = none)
    (hwd : env.getwd = .ok wd)
    (hy : ∀ project, buildProject env params = .ok project →
      env.marshal { file := env.AppFile, Version := env.AppVersion, Projects := [project] }
        = .ok y) :
    ∃ project h r, buildProject env params = .ok project ∧ New env params = .ok h ∧
      h = { file := env.AppFile, Version := env.AppVersion, Projects := [project] } ∧
      h.Add env fs params = .ok r ∧ r.err = none ∧ r.h = h ∧
      env.marshal h = .ok y ∧ r.fs.content env.AppFile = some y := by
  obtain ⟨project, hbuild⟩ := buildProject_ok env params wd hwd
  have hm := hy project hbuild
  have hread := Read_of_absent env fs
    { file := env.AppFile, Version := env.AppVersion, Projects := [project] } habsent
  have hc := Create_of_ok env fs
    { file := env.AppFile, Version := env.AppVersion, Projects := [project] } y hm hwrite
  refine ⟨project, { file := env.AppFile, Version := env.AppVersion, Projects := [project] },
    ⟨(Config.Create env fs
        { file := env.AppFile, Version := env.AppVersion, Projects := [project] }).1,
      { file := env.AppFile, Version := env.AppVersion, Projects := [project] },
      (Config.Create env fs
        { file := env.AppFile, Version := env.AppVersion, Projects := [project] }).2⟩,
    hbuild, ?_, rfl, ?_, hc.1, rfl, hm, hc.2⟩
  · simp only [New, hbuild]
  · simp only [Config.Add, hread]

/-- Witness of C10: no backing file, parameters `--path /w`. -/
theorem New_Add_creates_file_witness :
    fsAbsent.content exampleEnv.AppFile = none ∧ fsAbsent.writeFault = none ∧
    exampleEnv.getwd = .ok "/home/dev/app" ∧
    (∀ project, buildProject exampleEnv paramsW = .ok project →
      exampleEnv.marshal
        { file := exampleEnv.AppFile, Version := exampleEnv.AppVersion, Projects := [project] }
        = .ok (exampleEncode bootW)) ∧
    ∃ project h r, buildProject exampleEnv paramsW = .ok project ∧
      New exampleEnv paramsW = .ok h ∧
      h = { file := exampleEnv.AppFile, Version := exampleEnv.AppVersion,
            Projects := [project] } ∧
      h.Add exampleEnv fsAbsent paramsW = .ok r ∧ r.err = none ∧ r.h = h ∧
      exampleEnv.marshal h = .ok (exampleEncode bootW) ∧
      r.fs.content exampleEnv.AppFile = some (exampleEncode bootW) :=
  have hy : ∀ project, buildProject exampleEnv paramsW = .ok project →
      exampleEnv.marshal
        { file := exampleEnv.AppFile, Version := exampleEnv.AppVersion, Projects := [project] }
        = .ok (exampleEncode bootW) := by
    intro project hp
    have hp2 : (Except.ok projectW : Except String Project) = .ok project := hp
    cases hp2
    rfl
  ⟨rfl, rfl, rfl, hy,
    New_Add_creates_file exampleEnv fsAbsent paramsW "/home/dev/app" (exampleEncode bootW)
      rfl rfl rfl hy⟩

/-! ## Removing a project (`Remove`) -/

/-- C6: when the store loads without error and some loaded project has the
given name, `Remove` deletes the first loaded project with that name, keeps
all the others in their order, and its file system and error are those of
`Create` on the receiver holding the remaining projects; when serialization
and writing succeed the backing file holds the serialization of that
receiver. -/
theorem Remove_deletes_first_named (env : Env) (fs : FileSys) (h : Config)
    (params : Context)
    (hload : (h.Read env fs).err = none)
    (hname : ∃ q ∈ (h.Read env fs).h.Projects, q.Name = params.name) :
    ∃ pre q post, (h.Read env fs).h.Projects = pre ++ q :: post ∧
      (∀ x ∈ pre, x.Name ≠ params.name) ∧ q.Name = params.name ∧
      (h.Remove env fs params).h = { (h.Read env fs).h with Projects := pre ++ post } ∧
      ((h.Remove env fs params).fs, (h.Remove env fs params).err) =
        Config.Create env (h.Read env fs).fs (h.Remove env fs params).h ∧
      (∀ y, env.marshal (h.Remove env fs params).h = .ok y → fs.writeFault = none →
        (h.Remove env fs params).err = none ∧
        (h.Remove env fs params).fs.content h.file = some y) := by
  obtain ⟨pre, q, post, hsplit, hpre, hq⟩ :=
    exists_first_split (fun x : Project => params.name = x.Name) (h.Read env fs).h.Projects
      (by obtain ⟨q, hq, hqn⟩ := hname; exact ⟨q, hq, hqn.symm⟩)
  have hrem : h.Remove env fs params =
      ⟨(Config.Create env (h.Read env fs).fs
          { (h.Read env fs).h with Projects := [] ++ pre ++ post }).1,
        { (h.Read env fs).h with Projects := [] ++ pre ++ post },
        (Config.Create env (h.Read env fs).fs
          { (h.Read env fs).h with Projects := [] ++ pre ++ post }).2⟩ := by
    simp only [Config.Remove, hload]
    rw [hsplit]
    exact removeLoop_of_split env (h.Read env fs).fs (h.Read env fs).h params.name [] pre post q
      hpre hq
  refine ⟨pre, q, post, hsplit, fun x hx hn => hpre x hx hn.symm, hq.symm, ?_, ?_, ?_⟩
  · rw [hrem]; rfl
  · rw [hrem]
  · intro y hy hw
    rw [hrem] at hy ⊢
    have hw2 : (h.Read env fs).fs.writeFault = none := by rw [Read_writeFault]; exact hw
    have hc := Create_of_ok env (h.Read env fs).fs _ y hy hw2
    rw [← Read_file env fs h]
    exact hc

/-- Witness of C6: the store holds `a` at `/x` and `b` at `/y`; after removing
`a` the receiver holds `b` at `/y` only and the backing file holds the
serialization of exactly that store. -/
theorem Remove_deletes_first_named_witness :
    (bootW.Read exampleEnv (fsHolding (exampleEncode storeAB))).h.Projects
      = [projectA, projectB] ∧
    (bootW.Remove exampleEnv (fsHolding (exampleEncode storeAB)) { name := "a" }).h.Projects
      = [projectB] ∧
    (bootW.Remove exampleEnv (fsHolding (exampleEncode storeAB)) { name := "a" }).err = none ∧
    (bootW.Remove exampleEnv (fsHolding (exampleEncode storeAB)) { name := "a" }).fs.content
      ".realize.yaml" = some (exampleEncode storeB) ∧
    exampleEncode storeB = "version: 1.0\n- name: b\n  path: /y" ∧
    ∃ pre q post,
      (bootW.Read exampleEnv (fsHolding (exampleEncode storeAB))).h.Projects = pre ++ q :: post ∧
      (∀ x ∈ pre, x.Name ≠ "a") ∧ q.Name = "a" ∧
      (bootW.Remove exampleEnv (fsHolding (exampleEncode storeAB)) { name := "a" }).h =
        { (bootW.Read exampleEnv (fsHolding (exampleEncode storeAB))).h with
          Projects := pre ++ post } ∧
      ((bootW.Remove exampleEnv (fsHolding (exampleEncode storeAB)) { name := "a" }).fs,
        (bootW.Remove exampleEnv (fsHolding (exampleEncode storeAB)) { name := "a" }).err) =
        Config.Create exampleEnv (bootW.Read exampleEnv (fsHolding (exampleEncode storeAB))).fs
          (bootW.Remove exampleEnv (fsHolding (exampleEncode storeAB)) { name := "a" }).h ∧
      (∀ y,
        exampleEnv.marshal
          (bootW.Remove exampleEnv (fsHolding (exampleEncode storeAB)) { name := "a" }).h
          = .ok y →
        (fsHolding (exampleEncode storeAB)).writeFault = none →
        (bootW.Remove exampleEnv (fsHolding (exampleEncode storeAB)) { name := "a" }).err = none ∧
        (bootW.Remove exampleEnv (fsHolding (exampleEncode storeAB)) { name := "a" }).fs.content
          bootW.file = some y) :=
  ⟨by decide, by decide, by decide, by decide, by decide,
    Remove_deletes_first_named exampleEnv (fsHolding (exampleEncode storeAB)) bootW
      { name := "a" } (by decide) ⟨projectA, by decide, by decide⟩⟩

/-- C7 (counterexample): with no backing file, removing a name that no project
has returns the error of `os.Stat`, not `No project found`. -/
theorem Remove_absent_file_stat_error :
    fsAbsent.content bootW.file = none ∧
    (∀ x ∈ bootW.Projects, x.Name ≠ "nonexistent") ∧
    (bootW.Remove exampleEnv fsAbsent { name := "nonexistent" }).err =
      some "stat .realize.yaml: no such file or directory" ∧
    (bootW.Remove exampleEnv fsAbsent { name := "nonexistent" }).err ≠
      some "No project found" := by
  refine ⟨by decide, by decide, by decide, by decide⟩

/-- C7 (amended): when the backing file exists, can be read and loads without
error, and no loaded project has the given name, `Remove` returns the error
`No project found` and the file system is as before: the content of the
backing file is unchanged and `WriteFile` was not called. -/
theorem Remove_unknown_name_not_found (env : Env) (fs : FileSys) (h : Config)
    (params : Context) (data : String)
    (hexists : fs.content h.file = some data) (hreadable : fs.readFault = none)
    (hload : (h.Read env fs).err = none)
    (hnone : ∀ x ∈ (h.Read env fs).h.Projects, x.Name ≠ params.name) :
    (h.Remove env fs params).err = some "No project found" ∧
      (h.Remove env fs params).fs = fs ∧
      (h.Remove env fs params).fs.content h.file = some data ∧
      (h.Remove env fs params).fs.writeCalls = fs.writeCalls ∧
      (h.Remove env fs params).h = (h.Read env fs).h := by
  have hfs : (h.Read env fs).fs = fs := Read_fs_of_readable env fs h data hexists hreadable
  have hrem : h.Remove env fs params =
      ⟨(h.Read env fs).fs, (h.Read env fs).h, some "No project found"⟩ := by
    simp only [Config.Remove, hload]
    exact removeLoop_of_no_match env (h.Read env fs).fs (h.Read env fs).h params.name []
      (h.Read env fs).h.Projects (fun x hx hn => hnone x hx hn.symm)
  rw [hrem]
  refine ⟨rfl, hfs, ?_, ?_, rfl⟩
  · show (h.Read env fs).fs.content h.file = some data
    rw [hfs]; exact hexists
  · show (h.Read env fs).fs.writeCalls = fs.writeCalls
    rw [hfs]

/-- Witness of C7 (amended): the store holds `a` and `b`; removing
`nonexistent` fails with `No project found`. -/
theorem Remove_unknown_name_not_found_witness :
    (fsHolding (exampleEncode storeAB)).content bootW.file = some (exampleEncode storeAB) ∧
    (fsHolding (exampleEncode storeAB)).readFault = none ∧
    (bootW.Read exampleEnv (fsHolding (exampleEncode storeAB))).err = none ∧
    (∀ x ∈ (bootW.Read exampleEnv (fsHolding (exampleEncode storeAB))).h.Projects,
      x.Name ≠ "nonexistent") ∧
    (bootW.Remove exampleEnv (fsHolding (exampleEncode storeAB)) { name := "nonexistent" }).err
      = some "No project found" ∧
    (bootW.Remove exampleEnv (fsHolding (exampleEncode storeAB)) { name := "nonexistent" }).fs
      = fsHolding (exampleEncode storeAB) ∧
    (bootW.Remove exampleEnv (fsHolding (exampleEncode storeAB))
      { name := "nonexistent" }).fs.content bootW.file = some (exampleEncode storeAB) ∧
    (bootW.Remove exampleEnv (fsHolding (exampleEncode storeAB))
      { name := "nonexistent" }).fs.writeCalls = (fsHolding (exampleEncode storeAB)).writeCalls ∧
    (bootW.Remove exampleEnv (fsHolding (exampleEncode storeAB)) { name := "nonexistent" }).h
      = (bootW.Read exampleEnv (fsHolding (exampleEncode storeAB))).h :=
  ⟨by decide, rfl, by decide, by decide,
    Remove_unknown_name_not_found exampleEnv (fsHolding (exampleEncode storeAB)) bootW
      { name := "nonexistent" } (exampleEncode storeAB) (by decide) rfl (by decide) (by decide)⟩

/-! ## Loading the store (`Read`) -/

/-- C8 (counterexample): with no backing file, and although `Create` would
succeed, `Read` returns the error of `os.Stat`; afterwards there is still no
backing file and `WriteFile` was not called. -/
theorem Read_absent_file_not_created :
    fsAbsent.content bootW.file = none ∧
    (bootW.Create exampleEnv fsAbsent).2 = none ∧
    (bootW.Read exampleEnv fsAbsent).err =
      some "stat .realize.yaml: no such file or directory" ∧
    (bootW.Read exampleEnv fsAbsent).fs.content bootW.file = none ∧
    (bootW.Read exampleEnv fsAbsent).fs.writeCalls = [] := by
  refine ⟨by decide, by decide, by decide, by decide, by decide⟩

/-- C8 (amended): when the backing file is absent, `Read` does not call
`Create`: it returns the error of `os.Stat`, the file system is as before and
the receiver is unchanged. -/
theorem Read_absent_returns_stat_error (env : Env) (fs : FileSys) (h : Config)
    (habsent : fs.content h.file = none) :
    (h.Read env fs).err = osStat fs h.file ∧
      (h.Read env fs).err = some ("stat " ++ h.file ++ ": no such file or directory") ∧
      (h.Read env fs).fs = fs ∧ (h.Read env fs).h = h := by
  rw [Read_of_absent env fs h habsent]
  refine ⟨?_, rfl, rfl, rfl⟩
  simp only [osStat, habsent]

/-- Witness of C8 (amended): no backing file. -/
theorem Read_absent_returns_stat_error_witness :
    fsAbsent.content bootW.file = none ∧
    (bootW.Read exampleEnv fsAbsent).err = osStat fsAbsent bootW.file ∧
    (bootW.Read exampleEnv fsAbsent).err =
      some ("stat " ++ bootW.file ++ ": no such file or directory") ∧
    (bootW.Read exampleEnv fsAbsent).fs = fsAbsent ∧
    (bootW.Read exampleEnv fsAbsent).h = bootW :=
  ⟨rfl, Read_absent_returns_stat_error exampleEnv fsAbsent bootW rfl⟩

/-- C9 (counterexample): the backing file holds the store of `a` and `b` and
cannot be read; `Read` returns `nil`, not the read error, `WriteFile` was
called once, and the backing file now holds the serialization of the
receiver. -/
theorem Read_unreadable_file_overwritten :
    (fsUnreadable (exampleEncode storeAB)).content bootW.file = some (exampleEncode storeAB) ∧
    readFile (fsUnreadable (exampleEncode storeAB)) bootW.file =
      .error "open .realize.yaml: permission denied" ∧
    (bootW.Read exampleEnv (fsUnreadable (exampleEncode storeAB))).err = none ∧
    (bootW.Read exampleEnv (fsUnreadable (exampleEncode storeAB))).fs.writeCalls =
      [(".realize.yaml", exampleEncode bootW, 0o655)] ∧
    (bootW.Read exampleEnv (fsUnreadable (exampleEncode storeAB))).fs.content bootW.file =
      some (exampleEncode bootW) ∧
    exampleEncode bootW ≠ exampleEncode storeAB := by
  refine ⟨by decide, rfl, by decide, by decide, by decide, by decide⟩

/-- C9 (amended): when the backing file exists and reading it fails, `Read`
calls `Create`: its error and its file system are those of `Create` on the
receiver, and the receiver is unchanged. -/
theorem Read_unreadable_returns_create (env : Env) (fs : FileSys) (h : Config)
    (data err : String)
    (hexists : fs.content h.file = some data) (hfault : fs.readFault = some err) :
    readFile fs h.file = .error err ∧
      (h.Read env fs).err = (h.Create env fs).2 ∧
      (h.Read env fs).fs = (h.Create env fs).1 ∧ (h.Read env fs).h = h := by
  rw [Read_of_unreadable env fs h data err hexists hfault]
  refine ⟨?_, rfl, rfl, rfl⟩
  simp only [readFile, hexists, hfault]

/-- Witness of C9 (amended): the backing file cannot be read. -/
theorem Read_unreadable_returns_create_witness :
    (fsUnreadable (exampleEncode storeAB)).content bootW.file = some (exampleEncode storeAB) ∧
    (fsUnreadable (exampleEncode storeAB)).readFault =
      some "open .realize.yaml: permission denied" ∧
    readFile (fsUnreadable (exampleEncode storeAB)) bootW.file =
      .error "open .realize.yaml: permission denied" ∧
    (bootW.Read exampleEnv (fsUnreadable (exampleEncode storeAB))).err =
      (bootW.Create exampleEnv (fsUnreadable (exampleEncode storeAB))).2 ∧
    (bootW.Read exampleEnv (fsUnreadable (exampleEncode storeAB))).fs =
      (bootW.Create exampleEnv (fsUnreadable (exampleEncode storeAB))).1 ∧
    (bootW.Read exampleEnv (fsUnreadable (exampleEncode storeAB))).h = bootW :=
  ⟨by decide, rfl,
    Read_unreadable_returns_create exampleEnv (fsUnreadable (exampleEncode storeAB)) bootW
      (exampleEncode storeAB) "open .realize.yaml: permission denied" (by decide) rfl⟩

/-! ## `Add` after a failed load -/

/-- What `Add` does once `Read` has returned an error: `Create` on the
receiver as `Read` left it. -/
theorem Add_of_Read_error (env : Env) (fs : FileSys) (h : Config) (params : Context)
    (e : String) (hfail : (h.Read env fs).err = some e) :
    h.Add env fs params =
      .ok ⟨(Config.Create env (h.Read env fs).fs (h.Read env fs).h).1, (h.Read env fs).h,
        (Config.Create env (h.Read env fs).fs (h.Read env fs).h).2⟩ := by
  simp only [Config.Add, hfail]

/-- C11: in every state in which `Read` returns an error, `Add` returns the
result of `Create` on the receiver as `Read` left it, not the load error; no
project is built and none is appended, so the outcome is the same for all
parameters. With the file absent, and with a readable file and no project in
memory, that receiver and the file system are the ones `Add` was called with;
after a decoding error the receiver is what the decoder left. -/
theorem Add_after_failed_Read (env : Env) (fs : FileSys) (h : Config) (params : Context)
    (e : String) (hfail : (h.Read env fs).err = some e) :
    h.Add env fs params =
        .ok ⟨(Config.Create env (h.Read env fs).fs (h.Read env fs).h).1, (h.Read env fs).h,
          (Config.Create env (h.Read env fs).fs (h.Read env fs).h).2⟩ ∧
      (∀ params2, h.Add env fs params2 = h.Add env fs params) ∧
      (fs.content h.file = none → (h.Read env fs).fs = fs ∧ (h.Read env fs).h = h) ∧
      (∀ data, fs.content h.file = some data → fs.readFault = none → h.Projects = [] →
        (h.Read env fs).fs = fs ∧ (h.Read env fs).h = h) ∧
      (∀ data e2, fs.content h.file = some data → fs.readFault = none → h.Projects ≠ [] →
        (env.unmarshal data h).2 = some e2 →
        (h.Read env fs).fs = fs ∧
          (h.Read env fs).h = { (env.unmarshal data h).1 with file := h.file } ∧
          (h.Read env fs).err = some e2) := by
  refine ⟨Add_of_Read_error env fs h params e hfail, ?_, ?_, ?_, ?_⟩
  · intro params2
    rw [Add_of_Read_error env fs h params e hfail, Add_of_Read_error env fs h params2 e hfail]
  · intro habsent
    rw [Read_of_absent env fs h habsent]
    exact ⟨rfl, rfl⟩
  · intro data hexists hreadable hempty
    simp [Config.Read, osStat, readFile, hexists, hreadable, hempty]
  · intro data e2 hexists hreadable hne hdec
    have hlen : h.Projects.length > 0 := List.length_pos.mpr hne
    simp [Config.Read, osStat, readFile, hexists, hreadable, hlen, hdec]

/-- Witness of C11: no backing file; `Add` writes the receiver it was called
with. -/
theorem Add_after_failed_Read_witness :
    (bootW.Read exampleEnv fsAbsent).err =
      some "stat .realize.yaml: no such file or directory" ∧
    (∃ r, bootW.Add exampleEnv fsAbsent paramsQA = .ok r ∧ r.err = none ∧ r.h = bootW ∧
      r.fs.content ".realize.yaml" = some (exampleEncode bootW)) ∧
    (bootW.Add exampleEnv fsAbsent paramsQA =
        .ok ⟨(Config.Create exampleEnv (bootW.Read exampleEnv fsAbsent).fs
            (bootW.Read exampleEnv fsAbsent).h).1, (bootW.Read exampleEnv fsAbsent).h,
          (Config.Create exampleEnv (bootW.Read exampleEnv fsAbsent).fs
            (bootW.Read exampleEnv fsAbsent).h).2⟩ ∧
      (∀ params2, bootW.Add exampleEnv fsAbsent params2 = bootW.Add exampleEnv fsAbsent paramsQA) ∧
      (fsAbsent.content bootW.file = none →
        (bootW.Read exampleEnv fsAbsent).fs = fsAbsent ∧
          (bootW.Read exampleEnv fsAbsent).h = bootW) ∧
      (∀ data, fsAbsent.content bootW.file = some data → fsAbsent.readFault = none →
        bootW.Projects = [] →
        (bootW.Read exampleEnv fsAbsent).fs = fsAbsent ∧
          (bootW.Read exampleEnv fsAbsent).h = bootW) ∧
      (∀ data e2, fsAbsent.content bootW.file = some data → fsAbsent.readFault = none →
        bootW.Projects ≠ [] → (exampleEnv.unmarshal data bootW).2 = some e2 →
        (bootW.Read exampleEnv fsAbsent).fs = fsAbsent ∧
          (bootW.Read exampleEnv fsAbsent).h =
            { (exampleEnv.unmarshal data bootW).1 with file := bootW.file } ∧
          (bootW.Read exampleEnv fsAbsent).err = some e2)) :=
  ⟨by decide, ⟨_, rfl, by decide, by decide, by decide⟩,
    Add_after_failed_Read exampleEnv fsAbsent bootW paramsQA
      "stat .realize.yaml: no such file or directory" (by decide)⟩

/-! ## `Add` with an explicit name -/

/-- With the path parameter `/`, `nameFlag` returns the name parameter. -/
theorem nameFlag_of_root (env : Env) (params : Context) (hpath : params.path = "/") :
    nameFlag env params = .ok params.name := by
  have hne : ¬ (params.name = "" ∧ params.path = "") := by
    rintro ⟨_, hp⟩
    rw [hpath] at hp
    exact absurd hp (by decide)
  have hroot : ¬ (params.path ≠ "/") := fun hp => hp hpath
  unfold nameFlag
  rw [if_neg hne, if_neg hroot]

/-- C12 (counterexample): the store holds the project `a` at `/x`; `Add` with
the name parameter `a` and the path parameter `/z` builds a project named `z`,
returns `nil` and appends it. -/
theorem Add_name_a_path_z_succeeds :
    (bootZ.Read exampleEnv (fsHolding (exampleEncode storeA))).err = none ∧
    (bootZ.Read exampleEnv (fsHolding (exampleEncode storeA))).h.Projects = [projectA] ∧
    projectA.Name = "a" ∧ paramsAZ.name = "a" ∧ paramsAZ.path = "/z" ∧
    nameFlag exampleEnv paramsAZ = .ok "z" ∧
    ∃ r, bootZ.Add exampleEnv (fsHolding (exampleEncode storeA)) paramsAZ = .ok r ∧
      r.err = none ∧ r.h.Projects = [projectA, projectZ] :=
  ⟨by decide, by decide, rfl, rfl, rfl, rfl, _, rfl, by decide, by decide⟩

/-- C12 (amended): when the backing file exists, can be read and loads without
error, and the loaded store holds a project named `n`, `Add` with the name
parameter `n` and the path parameter `/` builds a project named `n` and fails
with the error of `Duplicates`, without appending or writing: the receiver is
the loaded one and the file system is as before, the content of the backing
file unchanged and `WriteFile` not called. The error names the first loaded
project sharing the built `Name` or `Path`, and it names `n` when every loaded
project with the built `Path` is named `n`. -/
theorem Add_name_at_root_fails (env : Env) (fs : FileSys) (h : Config) (params : Context)
    (n data : String)
    (hexists : fs.content h.file = some data) (hreadable : fs.readFault = none)
    (hload : (h.Read env fs).err = none)
    (hn : params.name = n) (hpath : params.path = "/")
    (hex : ∃ q ∈ (h.Read env fs).h.Projects, q.Name = n) :
    ∃ new r d, buildProject env params = .ok new ∧ new.Name = n ∧
      h.Add env fs params = .ok r ∧ r.err = some (duplicateMsg d.Name) ∧
      Duplicates new (h.Read env fs).h.Projects = (d, some (duplicateMsg d.Name)) ∧
      d ∈ (h.Read env fs).h.Projects ∧ (d.Path = new.Path ∨ d.Name = n) ∧
      r.h = (h.Read env fs).h ∧ r.fs = (h.Read env fs).fs ∧
      r.fs = fs ∧ r.fs.content h.file = some data ∧ r.fs.writeCalls = fs.writeCalls ∧
      ((∀ x ∈ (h.Read env fs).h.Projects, x.Path = new.Path → x.Name = n) →
        r.err = some (duplicateMsg n)) := by
  have hfs : (h.Read env fs).fs = fs := Read_fs_of_readable env fs h data hexists hreadable
  have hname : nameFlag env params = .ok n := by rw [nameFlag_of_root env params hpath, hn]
  obtain ⟨q, hq, hqn⟩ := hex
  have hbuild : ∃ new, buildProject env params = .ok new ∧ new.Name = n := by
    simp only [buildProject, hname]
    exact ⟨_, rfl, rfl⟩
  obtain ⟨new, hbuild, hnew⟩ := hbuild
  obtain ⟨pre, d, post, hsplit, hpre, hd⟩ :=
    exists_first_conflict new (h.Read env fs).h.Projects
      ⟨q, hq, Or.inr (by rw [hnew, hqn])⟩
  have hdup : Duplicates new (h.Read env fs).h.Projects = (d, some (duplicateMsg d.Name)) := by
    rw [hsplit]; exact Duplicates_eq_of_split new d pre post hpre hd
  have hd2 : d.Path = new.Path ∨ d.Name = n := by
    rcases hd with hp | hm
    · exact Or.inl hp.symm
    · exact Or.inr (by rw [← hm, hnew])
  refine ⟨new, ⟨(h.Read env fs).fs, (h.Read env fs).h, some (duplicateMsg d.Name)⟩, d,
    hbuild, hnew, ?_, rfl, hdup, ?_, hd2, rfl, rfl, hfs, ?_, ?_, ?_⟩
  · simp only [Config.Add, hload, hbuild, hdup]
  · rw [hsplit]; simp
  · show (h.Read env fs).fs.content h.file = some data
    rw [hfs]; exact hexists
  · show (h.Read env fs).fs.writeCalls = fs.writeCalls
    rw [hfs]
  · intro hall
    have hdn : d.Name = n := by
      rcases hd2 with hp | hm
      · exact hall d (by rw [hsplit]; simp) hp
      · exact hm
    show some (duplicateMsg d.Name) = some (duplicateMsg n)
    rw [hdn]

/-- Witness of C12 (amended): the store holds `a` at `/x`; `Add` with the name
parameter `a` and the path parameter `/` fails with the error naming `a`. -/
theorem Add_name_at_root_fails_witness :
    (fsHolding (exampleEncode storeA)).content bootW.file = some (exampleEncode storeA) ∧
    (fsHolding (exampleEncode storeA)).readFault = none ∧
    (bootW.Read exampleEnv (fsHolding (exampleEncode storeA))).err = none ∧
    paramsARoot.name = "a" ∧ paramsARoot.path = "/" ∧
    (∃ q ∈ (bootW.Read exampleEnv (fsHolding (exampleEncode storeA))).h.Projects,
      q.Name = "a") ∧
    (∃ r, bootW.Add exampleEnv (fsHolding (exampleEncode storeA)) paramsARoot = .ok r ∧
      r.err = some "There is a duplicate of 'a'. Check your config file!") ∧
    ∃ new r d, buildProject exampleEnv paramsARoot = .ok new ∧ new.Name = "a" ∧
      bootW.Add exampleEnv (fsHolding (exampleEncode storeA)) paramsARoot = .ok r ∧
      r.err = some (duplicateMsg d.Name) ∧
      Duplicates new (bootW.Read exampleEnv (fsHolding (exampleEncode storeA))).h.Projects
        = (d, some (duplicateMsg d.Name)) ∧
      d ∈ (bootW.Read exampleEnv (fsHolding (exampleEncode storeA))).h.Projects ∧
      (d.Path = new.Path ∨ d.Name = "a") ∧
      r.h = (bootW.Read exampleEnv (fsHolding (exampleEncode storeA))).h ∧
      r.fs = (bootW.Read exampleEnv (fsHolding (exampleEncode storeA))).fs ∧
      r.fs = fsHolding (exampleEncode storeA) ∧
      r.fs.content bootW.file = some (exampleEncode storeA) ∧
      r.fs.writeCalls = (fsHolding (exampleEncode storeA)).writeCalls ∧
      ((∀ x ∈ (bootW.Read exampleEnv (fsHolding (exampleEncode storeA))).h.Projects,
          x.Path = new.Path → x.Name = "a") →
        r.err = some (duplicateMsg "a")) :=
  ⟨by decide, rfl, by decide, rfl, rfl, ⟨projectA, by decide, rfl⟩, ⟨_, rfl, by decide⟩,
    Add_name_at_root_fails exampleEnv (fsHolding (exampleEncode storeA)) bootW paramsARoot "a"
      (exampleEncode storeA) (by decide) rfl (by decide) rfl rfl ⟨projectA, by decide, rfl⟩⟩

/-! ## Lemmas on the loop of `Clean` -/

/-- `Duplicates` finds nothing for `val` in `rest` exactly when `val` differs in
`Name` and `Path` from every entry of `rest`. -/
theorem Duplicates_none_iff_distinct (val : Project) (rest : List Project) :
    (Duplicates val rest).2 = none ↔ ∀ x ∈ rest, val.Name ≠ x.Name ∧ val.Path ≠ x.Path := by
  rw [Duplicates_err_eq_none_iff]
  constructor
  · intro hfree x hx
    exact ⟨fun hn => hfree x hx (Or.inr hn), fun hp => hfree x hx (Or.inl hp)⟩
  · intro hfree x hx hc
    rcases hc with hp | hn
    · exact (hfree x hx).2 hp
    · exact (hfree x hx).1 hn

/-- On a collection satisfying the invariant the loop of `Clean` removes
nothing. -/
theorem cleanLoop_of_conflictFree (done l : List Project) (hfree : ConflictFree l) :
    cleanLoop done l = done ++ l := by
  induction l generalizing done with
  | nil => simp [cleanLoop]
  | cons val rest ih =>
    have hcons := List.pairwise_cons.mp hfree
    have hnone : (Duplicates val rest).2 = none :=
      (Duplicates_none_iff_distinct val rest).mpr hcons.1
    have hnot : ¬ ((Duplicates val rest).2 ≠ none) := fun hne => hne hnone
    rw [cleanLoop, if_neg hnot, ih (done ++ [val]) hcons.2]
    simp

/-- The loop of `Clean` passes over a prefix none of whose entries conflicts
with a later entry, and removes the entry after it when that entry conflicts
with a later one. -/
theorem cleanLoop_of_split (done pre post : List Project) (v : Project)
    (hpre : ConflictFree pre)
    (hcross : ∀ x ∈ pre, ∀ y ∈ v :: post, x.Name ≠ y.Name ∧ x.Path ≠ y.Path)
    (hv : ∃ y ∈ post, v.Name = y.Name ∨ v.Path = y.Path) :
    cleanLoop done (pre ++ v :: post) = done ++ pre ++ post := by
  induction pre generalizing done with
  | nil =>
    have hsome : (Duplicates v post).2 ≠ none := by
      intro hnone
      obtain ⟨y, hy, hc⟩ := hv
      have hd := (Duplicates_none_iff_distinct v post).mp hnone y hy
      rcases hc with hn | hp
      · exact hd.1 hn
      · exact hd.2 hp
    rw [List.nil_append, cleanLoop, if_pos hsome]
    simp
  | cons val rest ih =>
    have hcons := List.pairwise_cons.mp hpre
    have hnone : (Duplicates val (rest ++ v :: post)).2 = none := by
      rw [Duplicates_none_iff_distinct]
      intro x hx
      rcases List.mem_append.mp hx with hr | hp
      · exact hcons.1 x hr
      · exact hcross val (List.mem_cons_self _ _) x hp
    have hnot : ¬ ((Duplicates val (rest ++ v :: post)).2 ≠ none) := fun hne => hne hnone
    show cleanLoop done (val :: (rest ++ v :: post)) = _
    rw [cleanLoop, if_neg hnot,
      ih (done ++ [val]) hcons.2 (fun x hx => hcross x (List.mem_cons_of_mem _ hx))]
    simp

/-- A collection either satisfies the invariant or splits at its first entry
that conflicts with a later one. -/
theorem conflictFree_or_split (l : List Project) :
    ConflictFree l ∨
      ∃ pre v post, l = pre ++ v :: post ∧ ConflictFree pre ∧
        (∀ x ∈ pre, ∀ y ∈ v :: post, x.Name ≠ y.Name ∧ x.Path ≠ y.Path) ∧
        (∃ y ∈ post, v.Name = y.Name ∨ v.Path = y.Path) := by
  induction l with
  | nil => exact Or.inl List.Pairwise.nil
  | cons val rest ih =>
    by_cases hval : ∀ x ∈ rest, val.Name ≠ x.Name ∧ val.Path ≠ x.Path
    · rcases ih with hfree | ⟨pre, v, post, hsplit, hpre, hcross, hv⟩
      · exact Or.inl (List.pairwise_cons.mpr ⟨hval, hfree⟩)
      · refine Or.inr ⟨val :: pre, v, post, by rw [hsplit]; rfl, ?_, ?_, hv⟩
        · refine List.pairwise_cons.mpr ⟨fun x hx => hval x ?_, hpre⟩
          rw [hsplit]; exact List.mem_append_left _ hx
        · intro x hx y hy
          rcases List.mem_cons.mp hx with hx | hx
          · subst hx
            exact hval y (by rw [hsplit]; exact List.mem_append_right _ hy)
          · exact hcross x hx y hy
    · refine Or.inr ⟨[], val, rest, rfl, List.Pairwise.nil, fun x hx => (by cases hx), ?_⟩
      by_contra hno
      apply hval
      intro x hx
      exact ⟨fun hn => hno ⟨x, hx, Or.inl hn⟩, fun hp => hno ⟨x, hx, Or.inr hp⟩⟩

/-- A collection that splits at an entry conflicting with a later one does not
satisfy the invariant. -/
theorem not_conflictFree_of_split (pre post : List Project) (v : Project)
    (hv : ∃ y ∈ post, v.Name = y.Name ∨ v.Path = y.Path) :
    ¬ ConflictFree (pre ++ v :: post) := by
  intro hfree
  have htail : ConflictFree (v :: post) := (List.pairwise_append.mp hfree).2.1
  obtain ⟨y, hy, hc⟩ := hv
  have hd := (List.pairwise_cons.mp htail).1 y hy
  rcases hc with hn | hp
  · exact hd.1 hn
  · exact hd.2 hp

/-- `Clean` is the identity on a receiver whose collection satisfies the
invariant. -/
theorem Clean_of_conflictFree (h : Config) (hfree : ConflictFree h.Projects) :
    Config.Clean h = h := by
  unfold Config.Clean
  rw [cleanLoop_of_conflictFree [] h.Projects hfree]
  rfl

/-- `Clean` removes exactly one entry from a collection that does not satisfy
the invariant. -/
theorem Clean_length_of_conflict (h : Config) (hconf : ¬ ConflictFree h.Projects) :
    (Config.Clean h).Projects.length + 1 = h.Projects.length := by
  rcases conflictFree_or_split h.Projects with hfree | ⟨pre, v, post, hsplit, hpre, hcross, hv⟩
  · exact absurd hfree hconf
  · have hclean : (Config.Clean h).Projects = [] ++ pre ++ post := by
      show cleanLoop [] h.Projects = _
      rw [hsplit]
      exact cleanLoop_of_split [] pre post v hpre hcross hv
    rw [hclean, hsplit]
    simp
    omega

/-! ## One pass and repeated passes of `Clean` -/

/-- C18: a single `Clean` removes at most one element. When the collection
splits as `pre ++ v :: post`, no element of `pre` conflicts with a later
element and `v` conflicts with an element of `post`, the result is
`pre ++ post`: the input without the element at index `pre.length`, the
smallest index of an element conflicting with a later one, everything else
(the later conflicting element included) kept in order. Such a split exists
whenever some element conflicts with a later one; otherwise `Clean` changes
nothing. `file` and `Version` are never changed. -/
theorem Clean_removes_first_conflicting (h : Config) :
    (∀ pre v post, h.Projects = pre ++ v :: post → ConflictFree pre →
        (∀ x ∈ pre, ∀ y ∈ v :: post, x.Name ≠ y.Name ∧ x.Path ≠ y.Path) →
        (∃ y ∈ post, v.Name = y.Name ∨ v.Path = y.Path) →
        (Config.Clean h).Projects = pre ++ post ∧
          (Config.Clean h).Projects = h.Projects.eraseIdx pre.length) ∧
      (¬ ConflictFree h.Projects →
        ∃ pre v post, h.Projects = pre ++ v :: post ∧ ConflictFree pre ∧
          (∀ x ∈ pre, ∀ y ∈ v :: post, x.Name ≠ y.Name ∧ x.Path ≠ y.Path) ∧
          (∃ y ∈ post, v.Name = y.Name ∨ v.Path = y.Path) ∧
          (Config.Clean h).Projects = pre ++ post) ∧
      (ConflictFree h.Projects → Config.Clean h = h) ∧
      h.Projects.length ≤ (Config.Clean h).Projects.length + 1 ∧
      (Config.Clean h).file = h.file ∧ (Config.Clean h).Version = h.Version := by
  have hsplitClean : ∀ pre v post, h.Projects = pre ++ v :: post → ConflictFree pre →
      (∀ x ∈ pre, ∀ y ∈ v :: post, x.Name ≠ y.Name ∧ x.Path ≠ y.Path) →
      (∃ y ∈ post, v.Name = y.Name ∨ v.Path = y.Path) →
      (Config.Clean h).Projects = pre ++ post := by
    intro pre v post hsplit hpre hcross hv
    show cleanLoop [] h.Projects = _
    rw [hsplit, cleanLoop_of_split [] pre post v hpre hcross hv]
    simp
  refine ⟨?_, ?_, Clean_of_conflictFree h, ?_, rfl, rfl⟩
  · intro pre v post hsplit hpre hcross hv
    refine ⟨hsplitClean pre v post hsplit hpre hcross hv, ?_⟩
    rw [hsplitClean pre v post hsplit hpre hcross hv, hsplit,
      List.eraseIdx_append_of_length_le (Nat.le_refl _)]
    simp
  · intro hconf
    rcases conflictFree_or_split h.Projects with hfree | ⟨pre, v, post, hsplit, hpre, hcross, hv⟩
    · exact absurd hfree hconf
    · exact ⟨pre, v, post, hsplit, hpre, hcross, hv, hsplitClean pre v post hsplit hpre hcross hv⟩
  · by_cases hfree : ConflictFree h.Projects
    · rw [Clean_of_conflictFree h hfree]; exact Nat.le_succ _
    · exact Nat.le_of_eq (Clean_length_of_conflict h hfree).symm

/-- After `k` passes of `Clean` the collection satisfies the invariant or has
lost `k` elements. -/
theorem Clean_iterate_progress (h : Config) (k : Nat) :
    ConflictFree (Config.Clean^[k] h).Projects ∨
      (Config.Clean^[k] h).Projects.length + k ≤ h.Projects.length := by
  induction k with
  | zero => exact Or.inr (Nat.le_refl _)
  | succ k ih =>
    rw [Function.iterate_succ_apply']
    rcases ih with hfree | hlen
    · rw [Clean_of_conflictFree _ hfree]; exact Or.inl hfree
    · by_cases hfree : ConflictFree (Config.Clean^[k] h).Projects
      · rw [Clean_of_conflictFree _ hfree]; exact Or.inl hfree
      · have hstep := Clean_length_of_conflict _ hfree
        exact Or.inr (by omega)

/-- After as many passes of `Clean` as the collection has elements, the
invariant holds. -/
theorem Clean_iterate_conflictFree (h : Config) :
    ConflictFree (Config.Clean^[h.Projects.length] h).Projects := by
  rcases Clean_iterate_progress h h.Projects.length with hfree | hlen
  · exact hfree
  · have hzero : (Config.Clean^[h.Projects.length] h).Projects.length = 0 := by omega
    rw [List.length_eq_zero.mp hzero]
    exact List.Pairwise.nil

/-- C20: for a collection of `n` projects, `n` passes of `Clean` give a
collection in which no two elements share a `Name` or a `Path`, and every
further pass leaves the receiver unchanged. -/
theorem Clean_iterate_converges (h : Config) :
    ConflictFree (Config.Clean^[h.Projects.length] h).Projects ∧
      Config.Clean (Config.Clean^[h.Projects.length] h) = Config.Clean^[h.Projects.length] h ∧
      ∀ k, Config.Clean^[h.Projects.length + k] h = Config.Clean^[h.Projects.length] h := by
  have hfree := Clean_iterate_conflictFree h
  refine ⟨hfree, Clean_of_conflictFree _ hfree, ?_⟩
  intro k
  induction k with
  | zero => rfl
  | succ k ih =>
    rw [← Nat.add_assoc, Function.iterate_succ_apply', ih]
    exact Clean_of_conflictFree _ hfree

/-- Witness of C18 and of its first part: on three projects named `a` the
first one conflicts with a later one and is the only one removed. -/
theorem Clean_removes_first_conflicting_witness :
    (Config.Clean storeAAA).Projects =
        [{ Name := "a", Path := "/y" }, { Name := "a", Path := "/z" }] ∧
      (Config.Clean storeAAA).Projects = storeAAA.Projects.eraseIdx 0 ∧
      Config.Clean storeAB = storeAB :=
  ⟨by decide,
    ((Clean_removes_first_conflicting storeAAA).1 [] { Name := "a", Path := "/x" }
      [{ Name := "a", Path := "/y" }, { Name := "a", Path := "/z" }] rfl List.Pairwise.nil
      (fun x hx => (by cases hx)) ⟨{ Name := "a", Path := "/y" }, by decide, Or.inl rfl⟩).2,
    (Clean_removes_first_conflicting storeAB).2.2.1 (by decide)⟩

/-- Witness of C20: three passes of `Clean` on three projects named `a` leave
one project, and a fourth pass changes nothing. -/
theorem Clean_iterate_converges_witness :
    (Config.Clean^[3] storeAAA).Projects = [{ Name := "a", Path := "/z" }] ∧
      ConflictFree (Config.Clean^[storeAAA.Projects.length] storeAAA).Projects ∧
      Config.Clean (Config.Clean^[storeAAA.Projects.length] storeAAA) =
        Config.Clean^[storeAAA.Projects.length] storeAAA :=
  ⟨by decide, (Clean_iterate_converges storeAAA).1, (Clean_iterate_converges storeAAA).2.1⟩

/-! ## The invariant under `Clean`, `Add` and `Remove` -/

/-- Appending a project for which `Duplicates` finds nothing keeps the
invariant. -/
theorem conflictFree_append_of_Duplicates_none (l : List Project) (new : Project)
    (hfree : ConflictFree l) (hnone : (Duplicates new l).2 = none) :
    ConflictFree (l ++ [new]) := by
  have hd := (Duplicates_none_iff_distinct new l).mp hnone
  refine List.pairwise_append.mpr ⟨hfree, List.pairwise_singleton _ _, ?_⟩
  intro x hx y hy
  rw [List.mem_singleton.mp hy]
  exact ⟨fun hn => (hd x hx).1 hn.symm, fun hp => (hd x hx).2 hp.symm⟩

/-- Removing one element keeps the invariant. -/
theorem conflictFree_of_remove (pre post : List Project) (q : Project)
    (hfree : ConflictFree (pre ++ q :: post)) : ConflictFree (pre ++ post) :=
  List.Pairwise.sublist
    (List.Sublist.append_left (List.sublist_cons_self q post) pre) hfree

/-- The receiver after the loop of `Remove`, started at the beginning of the
collection, holds the collection itself or the collection without one
element. -/
theorem removeLoop_projects (env : Env) (fs : FileSys) (h : Config) (name : String) :
    (removeLoop env fs h name [] h.Projects).h.Projects = h.Projects ∨
      ∃ pre q post, h.Projects = pre ++ q :: post ∧
        (removeLoop env fs h name [] h.Projects).h.Projects = pre ++ post := by
  by_cases hex : ∃ x ∈ h.Projects, name = x.Name
  · obtain ⟨pre, q, post, hsplit, hpre, hq⟩ :=
      exists_first_split (fun x : Project => name = x.Name) h.Projects hex
    refine Or.inr ⟨pre, q, post, hsplit, ?_⟩
    have hloop := removeLoop_of_split env fs h name [] pre post q hpre hq
    rw [← hsplit] at hloop
    rw [hloop]
    simp
  · refine Or.inl ?_
    rw [removeLoop_of_no_match env fs h name [] h.Projects
      (fun x hx hn => hex ⟨x, hx, hn⟩)]

/-- The steps that mutate the collection keep the invariant once it holds of
the collection they work on. A collection without two elements sharing a
`Name` or a `Path` is left so by `Clean`; when the collection in memory after
the load of `Add` or `Remove` has the invariant, the receiver of every result
of `Add` has it, in particular after the check by `Duplicates` and the append,
and so has the receiver after `Remove`. Nothing is said here of the load
itself. -/
theorem conflictFree_of_steps (env : Env) (fs : FileSys) (h : Config) (params : Context) :
    (ConflictFree h.Projects → ConflictFree (Config.Clean h).Projects) ∧
      (ConflictFree (h.Read env fs).h.Projects →
        ∀ r, h.Add env fs params = .ok r → ConflictFree r.h.Projects) ∧
      (ConflictFree (h.Read env fs).h.Projects →
        ∀ new, (Duplicates new (h.Read env fs).h.Projects).2 = none →
          ConflictFree ((h.Read env fs).h.Projects ++ [new])) ∧
      (ConflictFree (h.Read env fs).h.Projects →
        ConflictFree (h.Remove env fs params).h.Projects) := by
  refine ⟨?_, ?_, ?_, ?_⟩
  · intro hfree
    rw [Clean_of_conflictFree h hfree]; exact hfree
  · intro hfree r hadd
    unfold Config.Add at hadd
    cases herr : (h.Read env fs).err with
    | some e =>
      simp only [herr] at hadd
      cases hadd
      exact hfree
    | none =>
      simp only [herr] at hadd
      cases hbuild : buildProject env params with
      | error fatal => simp only [hbuild] at hadd; cases hadd
      | ok new =>
        simp only [hbuild] at hadd
        cases hdup : (Duplicates new (h.Read env fs).h.Projects).2 with
        | some e =>
          simp only [hdup] at hadd
          cases hadd
          exact hfree
        | none =>
          simp only [hdup] at hadd
          cases hadd
          exact conflictFree_append_of_Duplicates_none _ new hfree hdup
  · intro hfree new hnone
    exact conflictFree_append_of_Duplicates_none _ new hfree hnone
  · intro hfree
    cases herr : (h.Read env fs).err with
    | some e =>
      simp only [Config.Remove, herr]
      exact hfree
    | none =>
      simp only [Config.Remove, herr]
      rcases removeLoop_projects env (h.Read env fs).fs (h.Read env fs).h params.name with
        hsame | ⟨pre, q, post, hsplit, hrem⟩
      · rw [hsame]; exact hfree
      · rw [hrem]
        rw [hsplit] at hfree
        exact conflictFree_of_remove pre post q hfree

/-- C19 (evaluation of the code): the receiver holds one project, so no two
of its elements share a `Name` or a `Path`, and the backing file lists three
projects named `a`. `Add` with `--path /w` loads the file, where the single
pass of `Clean` removes one of them, finds no conflict for `w`, appends it and
returns `nil`: the collection in memory and in the backing file is `a`, `a`,
`w`, two elements sharing the name `a`. -/
theorem Add_leaves_shared_name :
    ConflictFree bootW.Projects ∧
    (bootW.Read exampleEnv (fsHolding (exampleEncode storeAAA))).h.Projects =
      [{ Name := "a", Path := "/y" }, { Name := "a", Path := "/z" }] ∧
    ∃ r, bootW.Add exampleEnv (fsHolding (exampleEncode storeAAA)) paramsW = .ok r ∧
      r.err = none ∧
      r.h.Projects =
        [{ Name := "a", Path := "/y" }, { Name := "a", Path := "/z" }, projectW] ∧
      ¬ ConflictFree r.h.Projects ∧
      r.fs.content ".realize.yaml" = some (exampleEncode r.h) :=
  ⟨by decide, by decide, _, rfl, by decide, by decide, by decide, by decide⟩

/-! ## Round trip through the backing file -/

/-- `writeFile` does not touch the read fault of the file system. -/
theorem writeFile_readFault (fs : FileSys) (name data : String) (perm : Nat) :
    (writeFile fs name data perm).1.readFault = fs.readFault := by
  unfold writeFile
  cases fs.writeFault <;> rfl

/-- `Create` does not touch the read fault of the file system. -/
theorem Create_readFault (env : Env) (fs : FileSys) (h : Config) :
    (h.Create env fs).1.readFault = fs.readFault := by
  unfold Config.Create
  cases env.marshal h with
  | error err => rfl
  | ok y => exact writeFile_readFault fs h.file y 0o655

/-- C13 (counterexample): with the example codec, whose decoder returns version
and projects of the encoded store, `Create` followed by `Read` fails on a
receiver without projects (`There are no projects`), and on a receiver with two
projects named `a` it succeeds and leaves one project only. -/
theorem Create_Read_not_round_trip :
    (storeEmpty.Create exampleEnv fsAbsent).2 = none ∧
    exampleEnv.unmarshal (exampleEncode storeEmpty) storeEmpty = (storeEmpty, none) ∧
    (storeEmpty.Read exampleEnv (storeEmpty.Create exampleEnv fsAbsent).1).err =
      some "There are no projects" ∧
    (storeAA.Create exampleEnv fsAbsent).2 = none ∧
    (storeAA.Create exampleEnv fsAbsent).1.content storeAA.file = some (exampleEncode storeAA) ∧
    exampleEnv.unmarshal (exampleEncode storeAA) storeAA = (storeAA, none) ∧
    (storeAA.Read exampleEnv (storeAA.Create exampleEnv fsAbsent).1).err = none ∧
    (storeAA.Read exampleEnv (storeAA.Create exampleEnv fsAbsent).1).h.Projects =
      [{ Name := "a", Path := "/y" }] ∧
    (storeAA.Read exampleEnv (storeAA.Create exampleEnv fsAbsent).1).h.Projects ≠
      storeAA.Projects := by
  refine ⟨by decide, by decide, by decide, by decide, by decide, by decide, by decide,
    by decide, by decide⟩

/-- C13 (amended): for a receiver with at least one project and no two projects
sharing a `Name` or a `Path`, when serialization gives `y`, the decoder applied
to `y` returns the receiver's version and projects without error, and neither
writing nor reading fails, `Create` returns `nil` and `Read` on the file it
wrote returns `nil` and leaves the receiver as it was: same version, same
projects in the same order. -/
theorem Create_Read_round_trip (env : Env) (fs : FileSys) (h : Config) (y : String)
    (hy : env.marshal h = .ok y)
    (hdec : (env.unmarshal y h).2 = none)
    (hver : (env.unmarshal y h).1.Version = h.Version)
    (hproj : (env.unmarshal y h).1.Projects = h.Projects)
    (hwrite : fs.writeFault = none) (hreadable : fs.readFault = none)
    (hne : h.Projects ≠ []) (hfree : ConflictFree h.Projects) :
    (h.Create env fs).2 = none ∧ (h.Create env fs).1.content h.file = some y ∧
      (h.Read env (h.Create env fs).1).err = none ∧
      (h.Read env (h.Create env fs).1).h = h ∧
      (h.Read env (h.Create env fs).1).h.Version = h.Version ∧
      (h.Read env (h.Create env fs).1).h.Projects = h.Projects ∧
      (h.Read env (h.Create env fs).1).fs = (h.Create env fs).1 := by
  obtain ⟨hcerr, hcontent⟩ := Create_of_ok env fs h y hy hwrite
  have hrf : (h.Create env fs).1.readFault = none := by rw [Create_readFault]; exact hreadable
  have hlen : h.Projects.length > 0 := List.length_pos.mpr hne
  have hh1 : ({ (env.unmarshal y h).1 with file := h.file } : Config) = h := by
    cases h with
    | mk file version projects =>
      simp only at hver hproj ⊢
      rw [hver, hproj]
  have hread : h.Read env (h.Create env fs).1 = ⟨(h.Create env fs).1, h, none⟩ := by
    simp only [Config.Read, osStat, readFile, hcontent, hrf, hlen, if_true, hdec, hh1]
    rw [Clean_of_conflictFree h hfree]
  rw [hread]
  exact ⟨hcerr, hcontent, rfl, rfl, rfl, rfl, rfl⟩

/-- Witness of C13 (amended): the store of `a` and `b`, written to an empty
file system and read back. -/
theorem Create_Read_round_trip_witness :
    exampleEnv.marshal storeAB = .ok (exampleEncode storeAB) ∧
    (exampleEnv.unmarshal (exampleEncode storeAB) storeAB).2 = none ∧
    storeAB.Projects ≠ [] ∧ ConflictFree storeAB.Projects ∧
    (storeAB.Create exampleEnv fsAbsent).2 = none ∧
    (storeAB.Create exampleEnv fsAbsent).1.content storeAB.file
      = some (exampleEncode storeAB) ∧
    (storeAB.Read exampleEnv (storeAB.Create exampleEnv fsAbsent).1).err = none ∧
    (storeAB.Read exampleEnv (storeAB.Create exampleEnv fsAbsent).1).h = storeAB ∧
    (storeAB.Read exampleEnv (storeAB.Create exampleEnv fsAbsent).1).h.Version
      = storeAB.Version ∧
    (storeAB.Read exampleEnv (storeAB.Create exampleEnv fsAbsent).1).h.Projects
      = storeAB.Projects ∧
    (storeAB.Read exampleEnv (storeAB.Create exampleEnv fsAbsent).1).fs
      = (storeAB.Create exampleEnv fsAbsent).1 :=
  ⟨rfl, by decide, by decide, by decide,
    Create_Read_round_trip exampleEnv fsAbsent storeAB (exampleEncode storeAB) rfl
      (by decide) (by decide) (by decide) rfl rfl (by decide) (by decide)⟩

/-! ## The builder: name and flags -/

/-- `boolFlag` is the negation. -/
theorem boolFlag_eq_not (b : Bool) : boolFlag b = !b := by
  cases b <;> rfl

/-- The project the builder returns once `nameFlag` has returned `name`. -/
theorem buildProject_of_nameFlag (env : Env) (params : Context) (name : String)
    (hname : nameFlag env params = .ok name) :
    ∃ p, buildProject env params = .ok p ∧ p.Name = name ∧
      p.Path = env.filepathClean params.path ∧
      p.Bin = boolFlag params.noBin ∧ p.Run = boolFlag params.noRun ∧
      p.Fmt = boolFlag params.noFmt ∧ p.Build = params.build ∧ p.Test = params.test := by
  simp only [buildProject, hname]
  exact ⟨_, rfl, rfl, rfl, rfl, rfl, rfl, rfl, rfl⟩

/-- C14: with an empty name and an empty path, the built `Name` is the base
name of the working directory; with a path other than `/`, name and path not
both empty, the built `Name` is the base name of that path, whatever the name
parameter. -/
theorem nameFlag_defaults (env : Env) (params : Context) :
    (∀ dir, params.name = "" → params.path = "" → env.getwd = .ok dir →
        WorkingDir env = .ok (env.filepathBase dir) ∧
        nameFlag env params = .ok (env.filepathBase dir) ∧
        ∃ p, buildProject env params = .ok p ∧ p.Name = env.filepathBase dir) ∧
      (params.path ≠ "/" → ¬ (params.name = "" ∧ params.path = "") →
        nameFlag env params = .ok (env.filepathBase params.path) ∧
        ∃ p, buildProject env params = .ok p ∧ p.Name = env.filepathBase params.path) := by
  constructor
  · intro dir hname hpath hwd
    have hw : WorkingDir env = .ok (env.filepathBase dir) := by
      simp only [WorkingDir, hwd]
    have hn : nameFlag env params = .ok (env.filepathBase dir) := by
      unfold nameFlag
      rw [if_pos ⟨hname, hpath⟩, hw]
    obtain ⟨p, hp, hpn, _⟩ := buildProject_of_nameFlag env params _ hn
    exact ⟨hw, hn, p, hp, hpn⟩
  · intro hroot hboth
    have hn : nameFlag env params = .ok (env.filepathBase params.path) := by
      unfold nameFlag
      rw [if_neg hboth, if_pos hroot]
    obtain ⟨p, hp, hpn, _⟩ := buildProject_of_nameFlag env params _ hn
    exact ⟨hn, p, hp, hpn⟩

/-- Witness of C14: without name and path in `/home/dev/app` the name is `app`;
with the name `a` and the path `/z` the name is `z`. -/
theorem nameFlag_defaults_witness :
    nameFlag exampleEnv {} = .ok "app" ∧ nameFlag exampleEnv paramsAZ = .ok "z" ∧
    (WorkingDir exampleEnv = .ok (exampleEnv.filepathBase "/home/dev/app") ∧
      nameFlag exampleEnv {} = .ok (exampleEnv.filepathBase "/home/dev/app") ∧
      ∃ p, buildProject exampleEnv {} = .ok p ∧
        p.Name = exampleEnv.filepathBase "/home/dev/app") ∧
    (nameFlag exampleEnv paramsAZ = .ok (exampleEnv.filepathBase paramsAZ.path) ∧
      ∃ p, buildProject exampleEnv paramsAZ = .ok p ∧
        p.Name = exampleEnv.filepathBase paramsAZ.path) :=
  ⟨rfl, rfl, (nameFlag_defaults exampleEnv {}).1 "/home/dev/app" rfl rfl rfl,
    (nameFlag_defaults exampleEnv paramsAZ).2 (by decide) (by decide)⟩

/-- C15 (counterexample): with the name `a` and an empty path, the built `Name`
is the base name of the empty path, `.`, not `a`. -/
theorem nameFlag_name_without_path :
    paramsA.name = "a" ∧ paramsA.name ≠ "" ∧ paramsA.path = "" ∧
    nameFlag exampleEnv paramsA = .ok "." ∧
    ∃ p, buildProject exampleEnv paramsA = .ok p ∧ p.Name = "." ∧ p.Name ≠ paramsA.name :=
  ⟨rfl, by decide, rfl, rfl, _, rfl, by decide, by decide⟩

/-- C15 (amended): when the path parameter is the filesystem root `/`, the
built `Name` is the name parameter as given. -/
theorem nameFlag_verbatim_at_root (env : Env) (params : Context)
    (hpath : params.path = "/") :
    nameFlag env params = .ok params.name ∧
      ∃ p, buildProject env params = .ok p ∧ p.Name = params.name := by
  have hn := nameFlag_of_root env params hpath
  obtain ⟨p, hp, hpn, _⟩ := buildProject_of_nameFlag env params _ hn
  exact ⟨hn, p, hp, hpn⟩

/-- Witness of C15 (amended): the name `a` with the path `/`. -/
theorem nameFlag_verbatim_at_root_witness :
    paramsARoot.path = "/" ∧ paramsARoot.name = "a" ∧
    nameFlag exampleEnv paramsARoot = .ok paramsARoot.name ∧
    ∃ p, buildProject exampleEnv paramsARoot = .ok p ∧ p.Name = paramsARoot.name :=
  ⟨rfl, rfl, nameFlag_verbatim_at_root exampleEnv paramsARoot rfl⟩

/-- C16: when the working directory is known, the builder returns a project,
`New` returns the receiver holding exactly that project, and `Add`, after a
load without error and a check without conflict, appends that project; every
project the builder returns has `Bin`, `Run`, `Fmt` equal to the negation of
the flags `no-bin`, `no-run`, `no-fmt`, and `Build`, `Test` equal to the flags
`build`, `test`. -/
theorem buildProject_flags (env : Env) (params : Context) (wd : String)
    (hwd : env.getwd = .ok wd) :
    (∃ p, buildProject env params = .ok p ∧
        New env params =
          .ok { file := env.AppFile, Version := env.AppVersion, Projects := [p] } ∧
        (∀ (fs : FileSys) (h : Config), (h.Read env fs).err = none →
          (Duplicates p (h.Read env fs).h.Projects).2 = none →
          ∃ r, h.Add env fs params = .ok r ∧
            r.h.Projects = (h.Read env fs).h.Projects ++ [p])) ∧
      (∀ p, buildProject env params = .ok p →
        p.Bin = (!params.noBin) ∧ p.Run = (!params.noRun) ∧ p.Fmt = (!params.noFmt) ∧
          p.Build = params.build ∧ p.Test = params.test) := by
  constructor
  · obtain ⟨p, hp⟩ := buildProject_ok env params wd hwd
    refine ⟨p, hp, ?_, ?_⟩
    · simp only [New, hp]
    · intro fs h hload hdup
      have hadd : h.Add env fs params =
          .ok ⟨(Config.Create env (h.Read env fs).fs
              { (h.Read env fs).h with Projects := (h.Read env fs).h.Projects ++ [p] }).1,
            { (h.Read env fs).h with Projects := (h.Read env fs).h.Projects ++ [p] },
            (Config.Create env (h.Read env fs).fs
              { (h.Read env fs).h with Projects := (h.Read env fs).h.Projects ++ [p] }).2⟩ := by
        simp only [Config.Add, hload, hp, hdup]
      exact ⟨_, hadd, rfl⟩
  · intro p hp
    obtain ⟨name, hname⟩ := nameFlag_ok env params wd hwd
    obtain ⟨q, hq, _, _, hbin, hrun, hfmt, hbuild, htest⟩ :=
      buildProject_of_nameFlag env params name hname
    have hpq : q = p := by
      rw [hq] at hp
      exact Except.ok.inj hp
    subst hpq
    rw [hbin, hrun, hfmt, boolFlag_eq_not, boolFlag_eq_not, boolFlag_eq_not]
    exact ⟨rfl, rfl, rfl, hbuild, htest⟩

/-- Witness of C16: the parameters `--path /w --build --no-run`. -/
theorem buildProject_flags_witness :
    exampleEnv.getwd = .ok "/home/dev/app" ∧
    (∃ p, buildProject exampleEnv paramsFlags = .ok p ∧ p.Bin = true ∧ p.Run = false ∧
      p.Fmt = true ∧ p.Build = true ∧ p.Test = false) ∧
    ((∃ p, buildProject exampleEnv paramsFlags = .ok p ∧
        New exampleEnv paramsFlags =
          .ok { file := exampleEnv.AppFile, Version := exampleEnv.AppVersion,
                Projects := [p] } ∧
        (∀ (fs : FileSys) (h : Config), (h.Read exampleEnv fs).err = none →
          (Duplicates p (h.Read exampleEnv fs).h.Projects).2 = none →
          ∃ r, h.Add exampleEnv fs paramsFlags = .ok r ∧
            r.h.Projects = (h.Read exampleEnv fs).h.Projects ++ [p])) ∧
      (∀ p, buildProject exampleEnv paramsFlags = .ok p →
        p.Bin = (!paramsFlags.noBin) ∧ p.Run = (!paramsFlags.noRun) ∧
          p.Fmt = (!paramsFlags.noFmt) ∧
          p.Build = paramsFlags.build ∧ p.Test = paramsFlags.test)) :=
  ⟨rfl, ⟨_, rfl, by decide, by decide, by decide, by decide, by decide⟩,
    buildProject_flags exampleEnv paramsFlags "/home/dev/app" rfl⟩

/-! ## The permission mode of the backing file -/

/-- C17 (evaluation of the code): `Create` calls `WriteFile` with the mode
`0655`. The owner may read and write and group and others may read, but the
execute bits of group and others are set: `0655 AND 0111` is `0011`, not `0`. -/
theorem Create_mode_execute_bits :
    (bootW.Create exampleEnv fsAbsent).1.writeCalls =
      [(".realize.yaml", exampleEncode bootW, 0o655)] ∧
    (0o655 : Nat) &&& 0o600 = 0o600 ∧ (0o655 : Nat) &&& 0o044 = 0o044 ∧
    (0o655 : Nat) &&& 0o111 = 0o011 ∧ (0o655 : Nat) &&& 0o111 ≠ 0 := by
  refine ⟨by decide, by decide, by decide, by decide, by decide⟩

end Realize
